import Mathlib

/-!
# uipathcli: value converter and authenticator chain

A shallow embedding of `commandline/type_converter.go`, `executor/plugin_executor.go`,
`auth/pat_authenticator.go` and `auth/bearer_authenticator.go`, with theorems about them.

Conventions of the embedding:

* A Go `string` is a list of Unicode characters (`Str`). `splitEscaped` scans bytes; on UTF-8
  text that is the same scan, because the backslash and the separators are ASCII and no byte
  of a multi-byte character is ASCII.
* A Go `(T, error)` pair is a `Result T`: `ok`, `error` with the message, or `panic` for a
  run-time panic (failed type assertion, index out of range).
* A Go `map[string]T` is an association list, read by `mapGet` and written by `mapSet`.
* An authenticator is the function from the context it is given to the result it returns.
* `strconv.ParseFloat` is a parameter (`ParseFloat : Str → Option F`, `F` the type of floats);
  `strconv.Atoi`, `strings.TrimSpace` and `strings.EqualFold` are modelled from their
  documentation.
* `url.Parse`, the identity client and the `%v` rendering of a configuration value that is not
  a string are parameters (`urlParse`, `getToken`, `formatOther`).
-/

namespace Uipathcli

/-- Go strings. -/
abbrev Str := List Char

/-- The outcome of a Go function returning `(T, error)` that may also panic. -/
inductive Result (α : Type) where
  | ok (value : α)
  | error (message : Str)
  | panic

namespace Result

/-- Maps the value of a successful outcome. -/
def map {α β : Type} (f : α → β) : Result α → Result β
  | ok a => ok (f a)
  | error e => error e
  | panic => panic

/-- Whether the outcome is a value. -/
def isOk {α : Type} : Result α → Bool
  | ok _ => true
  | _ => false

end Result

/-! ## Go maps -/

/-- Reads `m[key]`: `none` when the key is absent (Go yields the zero value, `nil`). -/
def mapGet {β : Type} : List (Str × β) → Str → Option β
  | [], _ => none
  | (k, v) :: rest, key => if k = key then some v else mapGet rest key

/-- Does `m[key] = value`: overwrites the entry of an existing key, adds one otherwise. -/
def mapSet {β : Type} : List (Str × β) → Str → β → List (Str × β)
  | [], key, value => [(key, value)]
  | (k, v) :: rest, key, value =>
    if k = key then (k, value) :: rest else (k, v) :: mapSet rest key value

/-! ## The standard library functions the converter calls -/

/-- The characters `unicode.IsSpace` accepts. -/
def isSpace (c : Char) : Bool :=
  c.toNat = 0x09 || c.toNat = 0x0A || c.toNat = 0x0B || c.toNat = 0x0C || c.toNat = 0x0D
    || c.toNat = 0x20 || c.toNat = 0x85 || c.toNat = 0xA0 || c.toNat = 0x1680
    || (0x2000 ≤ c.toNat && c.toNat ≤ 0x200A) || c.toNat = 0x2028 || c.toNat = 0x2029
    || c.toNat = 0x202F || c.toNat = 0x205F || c.toNat = 0x3000

/-- Go `strings.TrimSpace`: drops the leading and the trailing white space. -/
def TrimSpace (s : Str) : Str :=
  ((s.dropWhile isSpace).reverse.dropWhile isSpace).reverse

/-- Simple case folding of the characters that fold to an ASCII letter: `A`..`Z`, the long s
(U+017F, folds to `s`) and the Kelvin sign (U+212A, folds to `k`). Other characters are left
alone, which is exact when one side of the comparison is made of ASCII letters. -/
def foldRune (c : Char) : Char :=
  if 0x41 ≤ c.toNat ∧ c.toNat ≤ 0x5A then Char.ofNat (c.toNat + 0x20)
  else if c.toNat = 0x17F then 's'
  else if c.toNat = 0x212A then 'k'
  else c

/-- Go `strings.EqualFold`, for a second argument made of ASCII letters. -/
def EqualFold (s t : Str) : Bool :=
  s.map foldRune = t.map foldRune

/-- Whether the character is a decimal digit. -/
def isDigit (c : Char) : Bool :=
  0x30 ≤ c.toNat && c.toNat ≤ 0x39

/-- The number a string of decimal digits denotes. -/
def digitsValue (ds : Str) : Nat :=
  ds.foldl (fun n c => n * 10 + (c.toNat - 0x30)) 0

/-- Go `strconv.Atoi` with a 64-bit `int`: an optional sign, then one or more decimal digits,
the number within the range of `int`; `none` stands for a non-nil error. -/
def Atoi (s : Str) : Option Int :=
  let negative := s.head? = some '-'
  let digits := if s.head? = some '-' ∨ s.head? = some '+' then s.tail else s
  if digits = [] ∨ ¬ digits.all isDigit then none
  else if negative then
    if digitsValue digits ≤ 2 ^ 63 then some (- (digitsValue digits : Int)) else none
  else
    if digitsValue digits < 2 ^ 63 then some (digitsValue digits : Int) else none

/-! ## The schema (package `parser`) and the typed values -/

/-- Modelled from the spec: the declared types of a Parameter Schema Node, the constants
`parser.ParameterType...` of the source. -/
inductive ParameterType where
  | String | Integer | Number | Boolean | Binary | Object
  | StringArray | IntegerArray | NumberArray | BooleanArray | ObjectArray
  deriving DecidableEq

/-- Modelled from the spec: `parser.Parameter`, a schema node with its name, its declared type
and the ordered list of its child nodes (the fields the converter reads). -/
inductive Parameter where
  | mk (Name : Str) (Typ : ParameterType) (Parameters : List Parameter)

namespace Parameter

/-- Field `Name`. -/
def Name : Parameter → Str
  | mk n _ _ => n

/-- Field `Type`. -/
def Typ : Parameter → ParameterType
  | mk _ t _ => t

/-- Field `Parameters`. -/
def Parameters : Parameter → List Parameter
  | mk _ _ ps => ps

mutual
/-- Height of the schema tree under a node. -/
def depth : Parameter → Nat
  | mk _ _ ps => depthList ps + 1
/-- Largest height among a list of nodes. -/
def depthList : List Parameter → Nat
  | [] => 0
  | p :: ps => max (depth p) (depthList ps)
end

end Parameter

/-- The values `Convert` returns as `interface{}`: `int`, `float64`, `bool`,
`executor.FileReference`, `string`, `map[string]interface{}` and the five slice types. -/
inductive Value (F : Type) where
  | int (n : Int)
  | number (f : F)
  | bool (b : Bool)
  | binary (path : Str)
  | string (s : Str)
  | object (fields : List (Str × Value F))
  | stringArray (items : List Str)
  | integerArray (items : List Int)
  | numberArray (items : List F)
  | booleanArray (items : List Bool)
  | objectArray (items : List (Value F))

/-- Go `map[string]interface{}`. -/
abbrev Obj (F : Type) := List (Str × Value F)

/-! ## The escape-aware splitter -/

/-- The loop of Go `TypeConverter.splitEscaped` over the rest of the text, with the loop
variables `result`, `item` and `escaping`; at the end of the text a non-empty `item` is
appended. -/
def splitEscapedLoop (separator : Char) : Str → List Str → Str → Bool → List Str
  | [], result, item, _ => if item.length > 0 then result ++ [item] else result
  | char :: rest, result, item, escaping =>
    if char = '\\' ∧ escaping = false then
      splitEscapedLoop separator rest result item true
    else if char = '\\' ∧ escaping = true then
      splitEscapedLoop separator rest result (item ++ [char]) false
    else if char = separator ∧ escaping = false then
      splitEscapedLoop separator rest (result ++ [item]) [] escaping
    else
      splitEscapedLoop separator rest result (item ++ [char]) false

/-- Go `TypeConverter.splitEscaped`. -/
def splitEscaped (str : Str) (separator : Char) : List Str :=
  splitEscapedLoop separator str [] [] false

/-! ## `commandline/type_converter.go` -/

section Converter

variable {F : Type}

/-- Go `TypeConverter.trim`. -/
def trim (value : Str) : Str :=
  TrimSpace value

/-- The message `"Cannot convert '%s' value '%s' to <target>"`. -/
def cannotConvertValue (name value : Str) (target : String) : Str :=
  "Cannot convert '".toList ++ name ++ "' value '".toList ++ value ++ "' to ".toList
    ++ target.toList

/-- The message `"Cannot convert '%s' values '%s' to <target>"`. -/
def cannotConvertValues (name value : Str) (target : String) : Str :=
  "Cannot convert '".toList ++ name ++ "' values '".toList ++ value ++ "' to ".toList
    ++ target.toList

/-- The message `"Cannot convert '%s' value because object key '%s' is already defined"`. -/
def keyAlreadyDefined (name key : Str) : Str :=
  "Cannot convert '".toList ++ name ++ "' value because object key '".toList ++ key
    ++ "' is already defined".toList

/-- Go `TypeConverter.convertToInteger`. -/
def convertToInteger (value : Str) (parameter : Parameter) : Result Int :=
  match Atoi (trim value) with
  | none => .error (cannotConvertValue parameter.Name value "integer")
  | some result => .ok result

/-- Go `TypeConverter.convertToNumber`. -/
def convertToNumber (ParseFloat : Str → Option F) (value : Str) (parameter : Parameter) :
    Result F :=
  match ParseFloat (trim value) with
  | none => .error (cannotConvertValue parameter.Name value "number")
  | some result => .ok result

/-- Go `TypeConverter.convertToBoolean`. -/
def convertToBoolean (value : Str) (parameter : Parameter) : Result Bool :=
  let trimmedValue := trim value
  if EqualFold trimmedValue "true".toList then .ok true
  else if EqualFold trimmedValue "false".toList then .ok false
  else .error (cannotConvertValue parameter.Name value "boolean")

/-- Go `TypeConverter.convertToBinary`; the file reference only stores the path. -/
def convertToBinary (value : Str) (_parameter : Parameter) : Result Str :=
  .ok value

/-- Go `TypeConverter.findParameter`. -/
def findParameter (parameter : Option Parameter) (name : Str) : Option Parameter :=
  match parameter with
  | none => none
  | some p => p.Parameters.find? (fun param => param.Name = name)

/-- Go `TypeConverter.tryConvert`; `conv` is the call of `Convert`. -/
def tryConvert (conv : Str → Parameter → Result (Value F)) (value : Str)
    (parameter : Option Parameter) : Result (Value F) :=
  match parameter with
  | none => .ok (.string value)
  | some p => conv value p

/-- Go `TypeConverter.assignToObject`: the loop over `keys`, started at `obj` and at the
schema node `currentParameter`; `name` is `parameter.Name` of the node the conversion was
called on. It returns the updated map where the source returns a nil error. -/
def assignToObject (conv : Str → Parameter → Result (Value F)) (name : Str) :
    Obj F → List Str → Str → Option Parameter → Result (Obj F)
  | current, [], _, _ => .ok current
  | current, key :: rest, value, currentParameter =>
    let lastKey := rest.isEmpty
    if lastKey ∧ (mapGet current key).isSome then
      .error (keyAlreadyDefined name key)
    else
      let currentParameter := findParameter currentParameter key
      let current :=
        if (mapGet current key).isSome then current else mapSet current key (.object [])
      if lastKey then
        match tryConvert conv value currentParameter with
        | .ok parsedValue => .ok (mapSet current key parsedValue)
        | .error err => .error err
        | .panic => .panic
      else
        match mapGet current key with
        | some (.object child) =>
          match assignToObject conv name child rest value currentParameter with
          | .ok child => .ok (mapSet current key (.object child))
          | .error err => .error err
          | .panic => .panic
        | _ => .panic

/-- The loop of `convertToObject` over the assignment clauses. -/
def convertToObjectLoop (conv : Str → Parameter → Result (Value F)) (parameter : Parameter) :
    List Str → Obj F → Result (Obj F)
  | [], obj => .ok obj
  | assign :: rest, obj =>
    let keyValue := splitEscaped assign '='
    let keyValue := if keyValue.length < 2 then keyValue ++ [[]] else keyValue
    match keyValue[0]?, keyValue[1]? with
    | some key, some value =>
      match assignToObject conv parameter.Name obj (splitEscaped key '.') value
          (some parameter) with
      | .ok obj => convertToObjectLoop conv parameter rest obj
      | .error err => .error err
      | .panic => .panic
    | _, _ => .panic

/-- Go `TypeConverter.convertToObject`. -/
def convertToObject (conv : Str → Parameter → Result (Value F)) (value : Str)
    (parameter : Parameter) : Result (Value F) :=
  (convertToObjectLoop conv parameter (splitEscaped value ';') []).map Value.object

/-- Go `TypeConverter.convertToStringArray`. -/
def convertToStringArray (value : Str) (_parameter : Parameter) : Result (List Str) :=
  .ok (splitEscaped value ',')

/-- The loop shared by the typed array conversions: convert each item, append it to `result`,
and return `failure` at the first item with an error. -/
def convertItems {α : Type} (convertItem : Str → Result α) (failure : Str) :
    List Str → List α → Result (List α)
  | [], result => .ok result
  | itemStr :: rest, result =>
    match convertItem itemStr with
    | .ok item => convertItems convertItem failure rest (result ++ [item])
    | .error _ => .error failure
    | .panic => .panic

/-- Go `TypeConverter.convertToIntegerArray`. -/
def convertToIntegerArray (value : Str) (parameter : Parameter) : Result (List Int) :=
  convertItems (fun itemStr => convertToInteger itemStr parameter)
    (cannotConvertValues parameter.Name value "integer array") (splitEscaped value ',') []

/-- Go `TypeConverter.convertToNumberArray`. -/
def convertToNumberArray (ParseFloat : Str → Option F) (value : Str) (parameter : Parameter) :
    Result (List F) :=
  convertItems (fun itemStr => convertToNumber ParseFloat itemStr parameter)
    (cannotConvertValues parameter.Name value "number array") (splitEscaped value ',') []

/-- Go `TypeConverter.convertToBooleanArray`. -/
def convertToBooleanArray (value : Str) (parameter : Parameter) : Result (List Bool) :=
  convertItems (fun itemStr => convertToBoolean itemStr parameter)
    (cannotConvertValues parameter.Name value "boolean array") (splitEscaped value ',') []

/-- Go `TypeConverter.convertToObjectArray`. -/
def convertToObjectArray (conv : Str → Parameter → Result (Value F)) (value : Str)
    (parameter : Parameter) : Result (List (Value F)) :=
  convertItems (fun itemStr => convertToObject conv itemStr parameter)
    (cannotConvertValues parameter.Name value "object array") (splitEscaped value ',') []

/-- The body of Go `TypeConverter.Convert`; `conv` is `Convert` itself, called by
`tryConvert` on a child node. -/
def convertBody (ParseFloat : Str → Option F) (conv : Str → Parameter → Result (Value F))
    (value : Str) (parameter : Parameter) : Result (Value F) :=
  match parameter.Typ with
  | .Integer => (convertToInteger value parameter).map Value.int
  | .Number => (convertToNumber ParseFloat value parameter).map Value.number
  | .Boolean => (convertToBoolean value parameter).map Value.bool
  | .Binary => (convertToBinary value parameter).map Value.binary
  | .Object => convertToObject conv value parameter
  | .StringArray => (convertToStringArray value parameter).map Value.stringArray
  | .IntegerArray => (convertToIntegerArray value parameter).map Value.integerArray
  | .NumberArray => (convertToNumberArray ParseFloat value parameter).map Value.numberArray
  | .BooleanArray => (convertToBooleanArray value parameter).map Value.booleanArray
  | .ObjectArray => (convertToObjectArray conv value parameter).map Value.objectArray
  | .String => .ok (.string value)

/-- The recursion of `Convert`, `n` levels of the schema deep. The recursive call is on a
child node found by `findParameter`, so `depth + 1` levels reach every call (see
`convertUpTo_depth`) and the first equation is never used by `Convert`. -/
def convertUpTo (ParseFloat : Str → Option F) : Nat → Str → Parameter → Result (Value F)
  | 0 => fun _ _ => .panic
  | n + 1 => convertBody ParseFloat (convertUpTo ParseFloat n)

/-- Go `TypeConverter.Convert`. -/
def Convert (ParseFloat : Str → Option F) (value : Str) (parameter : Parameter) :
    Result (Value F) :=
  convertUpTo ParseFloat (parameter.depth + 1) value parameter

end Converter

/-! ## `executor/plugin_executor.go`: the authenticator chain -/

/-- Modelled from the spec: a value of the Authentication Configuration, the closed variant
(string, number, bool, nested mapping) that stands for Go `interface{}`. -/
inductive ConfigValue where
  | string (s : Str)
  | number (n : Int)
  | bool (b : Bool)
  | mapping (entries : List (Str × ConfigValue))

/-- Go `map[string]interface{}` of the authentication configuration. -/
abbrev Config := List (Str × ConfigValue)

/-- Go `map[string]string` of request headers. -/
abbrev Header := List (Str × Str)

/-- Modelled from the spec: `config.AuthConfig`, the fields `executeAuthenticators` reads. -/
structure AuthConfig where
  Typ : Str
  Config : Config

/-- Modelled from the spec: `auth.AuthenticatorRequest`, the request description with the
current header set. -/
structure AuthenticatorRequest where
  URL : Str
  Header : Header

/-- Modelled from the spec: `auth.AuthenticatorContext`, which bundles the current
configuration, the request with the current header set, the debug flag and the
insecure-transport flag. -/
structure AuthenticatorContext where
  Typ : Str
  Config : Config
  Debug : Bool
  Insecure : Bool
  Request : AuthenticatorRequest

/-- Modelled from the spec: `auth.AuthenticatorResult`; `Error` is the empty string on
success. -/
structure AuthenticatorResult where
  Error : Str
  RequestHeader : Header
  Config : Config

/-- Modelled from the spec: `auth.AuthenticatorSuccess`, the result `Success(headers, config)`. -/
def AuthenticatorSuccess (requestHeader : Header) (config : Config) : AuthenticatorResult :=
  { Error := [], RequestHeader := requestHeader, Config := config }

/-- Modelled from the spec: `auth.AuthenticatorError`, the result `Error(description)` with
nil maps. -/
def AuthenticatorError (description : Str) : AuthenticatorResult :=
  { Error := description, RequestHeader := [], Config := [] }

/-- Modelled from the spec: `auth.Authenticator`, the contract `auth(context) -> result`. -/
abbrev Authenticator := AuthenticatorContext → AuthenticatorResult

/-- The inner loop `for k, v := range result.RequestHeader { ctx.Request.Header[k] = v }`. -/
def mergeHeader (header : Header) : Header → Header
  | [] => header
  | (k, v) :: rest => mergeHeader (mapSet header k v) rest

/-- The loop of Go `PluginExecutor.executeAuthenticators` over the remaining authenticators,
with the loop variable `ctx`. -/
def executeAuthenticatorsLoop : List Authenticator → AuthenticatorContext →
    Result AuthenticatorResult
  | [], ctx => .ok (AuthenticatorSuccess ctx.Request.Header ctx.Config)
  | authProvider :: rest, ctx =>
    let result := authProvider ctx
    if result.Error ≠ [] then .error result.Error
    else
      executeAuthenticatorsLoop rest
        { ctx with
          Config := result.Config
          Request := { ctx.Request with
            Header := mergeHeader ctx.Request.Header result.RequestHeader } }

/-- Go `PluginExecutor.executeAuthenticators`; `baseUri` is the text `baseUri.String()`. -/
def executeAuthenticators (authenticators : List Authenticator) (baseUri : Str)
    (authConfig : AuthConfig) (debug insecure : Bool) : Result AuthenticatorResult :=
  let authRequest : AuthenticatorRequest := { URL := baseUri, Header := [] }
  let ctx : AuthenticatorContext :=
    { Typ := authConfig.Typ, Config := authConfig.Config, Debug := debug,
      Insecure := insecure, Request := authRequest }
  executeAuthenticatorsLoop authenticators ctx

/-! ## Package `auth`: the PAT and the bearer authenticator -/

/-- Go `%v` of a configuration value inside an error message: `<nil>` for a missing key and
the string itself for a string; `formatOther` renders the other values. -/
def formatValue (formatOther : ConfigValue → Str) : Option ConfigValue → Str
  | none => "<nil>".toList
  | some (.string s) => s
  | some v => formatOther v

/-- Go `parseRequiredString`, the same function in `PatAuthenticator` and in
`BearerAuthenticator`: the value under `name` when it is a non-empty string. -/
def parseRequiredString (formatOther : ConfigValue → Str) (config : Config) (name : Str) :
    Except Str Str :=
  match mapGet config name with
  | some (.string result) =>
    if result = [] then
      .error ("Invalid value for ".toList ++ name ++ ": '".toList
        ++ formatValue formatOther (some (.string result)) ++ "'".toList)
    else .ok result
  | value =>
    .error ("Invalid value for ".toList ++ name ++ ": '".toList
      ++ formatValue formatOther value ++ "'".toList)

namespace PatAuthenticator

/-- Go `PatAuthenticator.enabled`. -/
def enabled (ctx : AuthenticatorContext) : Bool :=
  (mapGet ctx.Config "pat".toList).isSome

/-- Go `PatAuthenticator.getPat`. -/
def getPat (formatOther : ConfigValue → Str) (ctx : AuthenticatorContext) : Except Str Str :=
  parseRequiredString formatOther ctx.Config "pat".toList

/-- Go `PatAuthenticator.Auth`. -/
def Auth (formatOther : ConfigValue → Str) : Authenticator :=
  fun ctx =>
    if ¬ enabled ctx then AuthenticatorSuccess ctx.Request.Header ctx.Config
    else
      match getPat formatOther ctx with
      | .error err =>
        AuthenticatorError ("Invalid PAT authenticator configuration: ".toList ++ err)
      | .ok pat =>
        AuthenticatorSuccess
          (mapSet ctx.Request.Header "Authorization".toList ("Bearer ".toList ++ pat))
          ctx.Config

end PatAuthenticator

/-- Modelled from the spec: the fields of Go `url.URL` the bearer authenticator reads. -/
structure URL where
  Scheme : Str
  Host : Str
  Path : Str

/-- Modelled from the spec: `auth.BearerAuthenticatorConfig`, the client id, the client secret
and the optional identity-service URI. -/
structure BearerAuthenticatorConfig where
  ClientId : Str
  ClientSecret : Str
  IdentityUri : Option URL

/-- Modelled from the spec: the Identity Client, `getToken(identityBaseUri, clientId,
clientSecret, insecure) -> accessToken | error`. -/
abbrev IdentityClient := URL → Str → Str → Bool → Except Str Str

namespace BearerAuthenticator

/-- Go `BearerAuthenticator.enabled`. -/
def enabled (ctx : AuthenticatorContext) : Bool :=
  (mapGet ctx.Config "clientId".toList).isSome
    && (mapGet ctx.Config "clientSecret".toList).isSome

/-- Go `BearerAuthenticator.getConfig`; `urlParse` is Go `url.Parse`. -/
def getConfig (formatOther : ConfigValue → Str) (urlParse : Str → Except Str URL)
    (ctx : AuthenticatorContext) : Except Str BearerAuthenticatorConfig :=
  match parseRequiredString formatOther ctx.Config "clientId".toList with
  | .error err => .error err
  | .ok clientId =>
    match parseRequiredString formatOther ctx.Config "clientSecret".toList with
    | .error err => .error err
    | .ok clientSecret =>
      match parseRequiredString formatOther ctx.Config "uri".toList with
      | .error _ => .ok { ClientId := clientId, ClientSecret := clientSecret, IdentityUri := none }
      | .ok uriString =>
        match urlParse uriString with
        | .error err => .error ("Error parsing identity uri: ".toList ++ err)
        | .ok uri =>
          .ok { ClientId := clientId, ClientSecret := clientSecret, IdentityUri := some uri }

/-- The identity base URI of Go `BearerAuthenticator.Auth`: the configured one, or the scheme
and host of the request URL with the path `/identity_`. -/
def identityBaseUri (urlParse : Str → Except Str URL) (ctx : AuthenticatorContext)
    (config : BearerAuthenticatorConfig) : Except Str URL :=
  match config.IdentityUri with
  | some uri => .ok uri
  | none =>
    match urlParse ctx.Request.URL with
    | .error err =>
      .error ("Invalid request url '".toList ++ ctx.Request.URL ++ "': ".toList ++ err)
    | .ok requestUrl =>
      match urlParse (requestUrl.Scheme ++ "://".toList ++ requestUrl.Host
          ++ "/identity_".toList) with
      | .error err =>
        .error ("Invalid identity url '".toList ++ ctx.Request.URL ++ "': ".toList ++ err)
      | .ok uri => .ok uri

/-- Go `BearerAuthenticator.Auth`; `getToken` is the identity client built from the
authenticator and its cache. -/
def Auth (formatOther : ConfigValue → Str) (urlParse : Str → Except Str URL)
    (getToken : IdentityClient) : Authenticator :=
  fun ctx =>
    if ¬ enabled ctx then AuthenticatorSuccess ctx.Request.Header ctx.Config
    else
      match getConfig formatOther urlParse ctx with
      | .error err =>
        AuthenticatorError ("Invalid bearer authenticator configuration: ".toList ++ err)
      | .ok config =>
        match identityBaseUri urlParse ctx config with
        | .error err => AuthenticatorError err
        | .ok uri =>
          match getToken uri config.ClientId config.ClientSecret ctx.Insecure with
          | .error err => AuthenticatorError ("Error retrieving bearer token: ".toList ++ err)
          | .ok accessToken =>
            AuthenticatorSuccess
              (mapSet ctx.Request.Header "Authorization".toList
                ("Bearer ".toList ++ accessToken))
              ctx.Config

end BearerAuthenticator

/-! ## `executor/plugin_executor.go`: parameters and `Call` -/

section Executor

variable {V : Type}

/-- Modelled from the spec: `executor.ExecutionParameter`, a named value; `V` is the type of
the values (`interface{}`). -/
structure ExecutionParameter (V : Type) where
  Name : Str
  Value : V

/-- Modelled from the spec: `executor.ExecutionContextParameters`, the five parameter
groups. -/
structure ExecutionContextParameters (V : Type) where
  Path : List (ExecutionParameter V)
  Query : List (ExecutionParameter V)
  Header : List (ExecutionParameter V)
  Body : List (ExecutionParameter V)
  Form : List (ExecutionParameter V)

/-- Modelled from the spec: `plugin.ExecutionParameter`, built by
`plugin.NewExecutionParameter(name, value)`. -/
structure PluginExecutionParameter (V : Type) where
  Name : Str
  Value : V

/-- Modelled from the spec: `plugin.AuthResult`, the headers of the final auth result. -/
structure AuthResult where
  Header : Header

/-- Go `plugin.ExecutionContext` with `plugin.NewExecutionContext`; the base URI is given by
its text and the input file by its path. -/
structure PluginExecutionContext (V : Type) where
  Organization : Str
  Tenant : Str
  BaseUri : Str
  Auth : AuthResult
  Input : Option Str
  Parameters : List (PluginExecutionParameter V)
  Insecure : Bool
  Debug : Bool

/-- Modelled from the spec: the Transport Plugin, `execute(executionContext, outputWriter,
logger) -> error|ok`. -/
abbrev Plugin (V : Type) := PluginExecutionContext V → Result Unit

/-- Modelled from the spec: `executor.ExecutionContext`, the fields `Call` reads. -/
structure ExecutionContext (V : Type) where
  Organization : Str
  Tenant : Str
  BaseUri : Str
  AuthConfig : AuthConfig
  Input : Option Str
  Parameters : ExecutionContextParameters V
  Insecure : Bool
  Debug : Bool
  Plugin : Plugin V

/-- The loop of Go `PluginExecutor.convertToPluginParameters`, with the variable `result`. -/
def convertToPluginParametersLoop :
    List (ExecutionParameter V) → List (PluginExecutionParameter V) →
      List (PluginExecutionParameter V)
  | [], result => result
  | parameter :: rest, result =>
    convertToPluginParametersLoop rest
      (result ++ [{ Name := parameter.Name, Value := parameter.Value }])

/-- Go `PluginExecutor.convertToPluginParameters`. -/
def convertToPluginParameters (parameters : List (ExecutionParameter V)) :
    List (PluginExecutionParameter V) :=
  convertToPluginParametersLoop parameters []

/-- Go `PluginExecutor.pluginParameters`. -/
def pluginParameters (context : ExecutionContext V) : List (PluginExecutionParameter V) :=
  let params := context.Parameters.Path
  let params := params ++ context.Parameters.Query
  let params := params ++ context.Parameters.Header
  let params := params ++ context.Parameters.Body
  let params := params ++ context.Parameters.Form
  convertToPluginParameters params

/-- Go `PluginExecutor.pluginAuth`. -/
def pluginAuth (auth : AuthenticatorResult) : AuthResult :=
  { Header := auth.RequestHeader }

/-- Go `PluginExecutor.Call`. -/
def Call (authenticators : List Authenticator) (context : ExecutionContext V) : Result Unit :=
  match executeAuthenticators authenticators context.BaseUri context.AuthConfig context.Debug
      context.Insecure with
  | .error err => .error err
  | .panic => .panic
  | .ok auth =>
    let pluginContext : PluginExecutionContext V :=
      { Organization := context.Organization, Tenant := context.Tenant,
        BaseUri := context.BaseUri, Auth := pluginAuth auth, Input := context.Input,
        Parameters := pluginParameters context, Insecure := context.Insecure,
        Debug := context.Debug }
    context.Plugin pluginContext

end Executor

/-! ## Definitions used to state the properties -/

/-- Go `strings.Join(items, separator)` for a one-character separator. -/
def joinWith (separator : Char) : List Str → Str
  | [] => []
  | [item] => item
  | item :: next :: rest => item ++ separator :: joinWith separator (next :: rest)

/-- Escapes an item for `splitEscaped`: a backslash becomes two backslashes, the separator
becomes a backslash followed by the separator. -/
def escapeItem (separator : Char) : Str → Str
  | [] => []
  | c :: rest =>
    if c = '\\' ∨ c = separator then '\\' :: c :: escapeItem separator rest
    else c :: escapeItem separator rest

/-- A `ParseFloat` for examples without a number node: it rejects every text. -/
def noFloats : Str → Option Unit := fun _ => none

/-- The context `executeAuthenticators` starts from: the caller's configuration and an empty
header set. -/
def initialContext (baseUri : Str) (authConfig : AuthConfig) (debug insecure : Bool) :
    AuthenticatorContext :=
  { Typ := authConfig.Typ, Config := authConfig.Config, Debug := debug, Insecure := insecure,
    Request := { URL := baseUri, Header := [] } }

/-- One step of the chain as the spec words it: the authenticator sees the current state, and
its `Success(headers, config)` replaces the configuration and is merged into the headers. -/
def chainStep (ctx : AuthenticatorContext) (authProvider : Authenticator) :
    AuthenticatorContext :=
  { ctx with
    Config := (authProvider ctx).Config
    Request := { ctx.Request with
      Header := mergeHeader ctx.Request.Header (authProvider ctx).RequestHeader } }

/-- Example authenticator A: disabled, it passes the context through. -/
def sampleDisabled : Authenticator :=
  fun ctx => AuthenticatorSuccess ctx.Request.Header ctx.Config

/-- Example authenticator B: sets header `H1` and configuration key `K`. -/
def sampleSetter : Authenticator :=
  fun ctx => AuthenticatorSuccess (mapSet ctx.Request.Header "H1".toList "one".toList)
    (mapSet ctx.Config "K".toList (.string "set".toList))

/-- Example authenticator C: enabled only when configuration key `K` is set; it then sets
header `H2`. -/
def sampleDependent : Authenticator :=
  fun ctx =>
    if (mapGet ctx.Config "K".toList).isSome then
      AuthenticatorSuccess (mapSet ctx.Request.Header "H2".toList "two".toList) ctx.Config
    else AuthenticatorSuccess ctx.Request.Header ctx.Config

/-- Example authenticator that fails with the description `denied`. -/
def sampleFailing : Authenticator :=
  fun _ => AuthenticatorError "denied".toList

/-- A `formatOther` for examples whose configuration holds strings only. -/
def noFormat : ConfigValue → Str := fun _ => []

/-- A `url.Parse` for examples that parse no URL: it rejects every text. -/
def noUrl : Str → Except Str URL := fun _ => .error []

/-- An identity client that answers every request with the token `secret-token`. -/
def fixedToken : IdentityClient := fun _ _ _ _ => .ok "secret-token".toList

section ObjectSpec

variable {F : Type}

/-- Follows a key path into a value: each key is looked up in the mapping reached so far. -/
def valueAt : Value F → List Str → Option (Value F)
  | v, [] => some v
  | .object fields, key :: rest =>
    match mapGet fields key with
    | some child => valueAt child rest
    | none => none
  | _, _ :: _ => none

/-- The schema child found by looking the segments up by name, one after the other. -/
def findPath (parameter : Option Parameter) (keys : List Str) : Option Parameter :=
  keys.foldl findParameter parameter

/-- The nested mapping under a key, empty when the key holds none. -/
def childAt (obj : Obj F) (key : Str) : Obj F :=
  match mapGet obj key with
  | some (.object child) => child
  | _ => []

/-- The mapping with `value` put at the end of the key path, nested mappings along the path
being reused when they exist and created otherwise. -/
def insertAt : Obj F → List Str → Value F → Obj F
  | obj, [], _ => obj
  | obj, [key], value => mapSet obj key value
  | obj, key :: next :: rest, value =>
    mapSet obj key (.object (insertAt (childAt obj key) (next :: rest) value))

/-- Whether the key path can still be assigned in the mapping: its last key is not set, and
the keys before it are absent or hold nested mappings. -/
def freeAt : Obj F → List Str → Bool
  | _, [] => true
  | obj, [key] => (mapGet obj key).isNone
  | obj, key :: next :: rest =>
    match mapGet obj key with
    | none => true
    | some (.object child) => freeAt child (next :: rest)
    | some _ => false

/-- A text without backslash, `;`, `=` and `.`. -/
def plainText (s : Str) : Prop :=
  '\\' ∉ s ∧ ';' ∉ s ∧ '=' ∉ s ∧ '.' ∉ s

/-- The clause `path=value` of a key path and a value, the segments joined by `.`. -/
def clauseText (clause : List Str × Str) : Str :=
  joinWith '.' clause.1 ++ '=' :: clause.2

/-- The object text of a list of clauses, joined by `;`. -/
def objectText (clauses : List (List Str × Str)) : Str :=
  joinWith ';' (clauses.map clauseText)

/-- The key path and the value that the loop of `convertToObject` reads off a clause: the
clause is split at `=`, one empty piece is appended when there are fewer than two pieces, the
first piece is split at `.` and the second piece is the value; `none` when there is no second
piece (the index is out of range). -/
def clauseParts (assign : Str) : Option (List Str × Str) :=
  let keyValue := splitEscaped assign '='
  let keyValue := if keyValue.length < 2 then keyValue ++ [[]] else keyValue
  match keyValue[0]?, keyValue[1]? with
  | some key, some value => some (splitEscaped key '.', value)
  | _, _ => none

/-- A clause of the text `value` assigns `clauseValue` at a key path whose segments, looked up
by name from `parameter`, lead to the schema node `child`. -/
def isClauseOf (parameter : Parameter) (value : Str) (child : Parameter) (clauseValue : Str) :
    Prop :=
  ∃ assign ∈ splitEscaped value ';', ∃ keys, clauseParts assign = some (keys, clauseValue)
    ∧ keys ≠ [] ∧ findPath (some parameter) keys = some child

/-- The message is the duplicate-key error of the node for the last key of the key path of a
clause of the text `value`. -/
def isDuplicateKeyError (parameter : Parameter) (value : Str) (msg : Str) : Prop :=
  ∃ assign ∈ splitEscaped value ';', ∃ (keys : List Str) (clauseValue : Str) (hne : keys ≠ []),
    clauseParts assign = some (keys, clauseValue)
    ∧ msg = "Cannot convert '".toList ++ parameter.Name
        ++ "' value because object key '".toList ++ keys.getLast hne
        ++ "' is already defined".toList

/-- The conversions that converting `value` on `parameter` leads to: that conversion itself
and, on an object node, whatever converting the value of one of its clauses on the schema
child at the clause's key path leads to. -/
inductive LeadsTo : Parameter → Str → Parameter → Str → Prop where
  | here (parameter : Parameter) (value : Str) : LeadsTo parameter value parameter value
  | clause (parameter : Parameter) (value : Str) (child : Parameter) (clauseValue : Str)
      (node : Parameter) (text : Str) :
      parameter.Typ = .Object → isClauseOf parameter value child clauseValue →
      LeadsTo child clauseValue node text → LeadsTo parameter value node text

/-- What holds of the mapping built from the clauses assigned so far: every clause's converted
value is at its key path, every key path set leads to or continues a clause's key path, and
the key paths that lead to a clause's key path hold nested mappings. -/
def builtFrom (conv : Str → Parameter → Result (Value F)) (parameter : Parameter)
    (obj : Obj F) (clauses : List (List Str × Str)) : Prop :=
  (∀ c ∈ clauses, ∃ v, tryConvert conv c.2 (findPath (some parameter) c.1) = .ok v
      ∧ valueAt (.object obj) c.1 = some v)
  ∧ (∀ ks, ks ≠ [] → valueAt (.object obj) ks ≠ none →
      ∃ c ∈ clauses, ks <+: c.1 ∨ c.1 <+: ks)
  ∧ (∀ c ∈ clauses, ∀ ks, ks ≠ [] → ks <+: c.1 → ks ≠ c.1 →
      ∃ m, valueAt (.object obj) ks = some (.object m))

end ObjectSpec

/-! ## Theorems: the splitter -/

theorem splitEscapedLoop_escapeItem (separator : Char) (hsep : separator ≠ '\\') (item : Str) :
    ∀ (rest : Str) (result : List Str) (acc : Str),
      splitEscapedLoop separator (escapeItem separator item ++ rest) result acc false
        = splitEscapedLoop separator rest result (acc ++ item) false := by
  induction item with
  | nil => intro rest result acc; simp [escapeItem]
  | cons c cs ih =>
    intro rest result acc
    by_cases hb : c = '\\'
    · subst hb
      simp [escapeItem, splitEscapedLoop, ih]
    · by_cases hs : c = separator
      · subst hs
        simp [escapeItem, splitEscapedLoop, ih, hb]
      · simp [escapeItem, splitEscapedLoop, ih, hb, hs]

theorem escapeItem_eq_self (separator : Char) :
    ∀ (item : Str), '\\' ∉ item → separator ∉ item → escapeItem separator item = item := by
  intro item
  induction item with
  | nil => intro _ _; rfl
  | cons c cs ih =>
    intro hb hs
    simp only [List.mem_cons, not_or] at hb hs
    have h1 : ¬ (c = '\\' ∨ c = separator) := by
      rintro (h | h)
      · exact hb.1 h.symm
      · exact hs.1 h.symm
    simp [escapeItem, h1, ih hb.2 hs.2]

theorem splitEscapedLoop_joinLast (separator : Char) (hsep : separator ≠ '\\') :
    ∀ (items : List Str), items.getLast? ≠ some [] → ∀ (result : List Str),
      splitEscapedLoop separator (joinWith separator (items.map (escapeItem separator)))
        result [] false = result ++ items := by
  intro items
  induction items with
  | nil => intro _ result; simp [joinWith, splitEscapedLoop]
  | cons x xs ih =>
    intro hlast result
    cases xs with
    | nil =>
      have hx : x ≠ [] := by
        intro h; apply hlast; simp [h]
      have h := splitEscapedLoop_escapeItem separator hsep x [] result []
      simp only [List.append_nil, List.nil_append] at h
      simp [joinWith, h, splitEscapedLoop, List.length_pos, hx]
    | cons y ys =>
      have h := splitEscapedLoop_escapeItem separator hsep x
        (separator :: joinWith separator ((y :: ys).map (escapeItem separator))) result []
      have ih2 := ih (by simpa [List.getLast?_cons_cons] using hlast) (result ++ [x])
      simp only [List.nil_append] at h
      simp only [List.map_cons, joinWith] at h ih2 ⊢
      rw [h]
      simp [splitEscapedLoop, hsep, ih2]

/-- Plain items, free of the backslash and of the separator, are split where they were
joined, provided the last one is not empty. -/
theorem splitEscaped_joinWith_plain (separator : Char) (hsep : separator ≠ '\\')
    (items : List Str) (hlast : items.getLast? ≠ some [])
    (hplain : ∀ item ∈ items, '\\' ∉ item ∧ separator ∉ item) :
    splitEscaped (joinWith separator items) separator = items := by
  have hmap : items.map (escapeItem separator) = items := by
    conv => rhs; rw [← List.map_id items]
    apply List.map_congr_left
    intro item hitem
    exact escapeItem_eq_self separator item (hplain item hitem).1 (hplain item hitem).2
  have h := splitEscapedLoop_joinLast separator hsep items hlast []
  rw [hmap] at h
  simpa [splitEscaped] using h

/-- C1: escape round trip of `splitEscaped`. For a separator other than the backslash and a
list of non-empty items, escaping each item, joining the escaped items with the separator and
splitting the joined text gives back the items; so `a\,b,c` splits into `a,b` and `c`, and
`a\\,b` splits into `a\` and `b`. -/
theorem splitEscaped_escape_roundtrip (separator : Char) (hsep : separator ≠ '\\')
    (items : List Str) (hne : ∀ item ∈ items, item ≠ []) :
    splitEscaped (joinWith separator (items.map (escapeItem separator))) separator = items
    ∧ splitEscaped "a\\,b,c".toList ',' = ["a,b".toList, "c".toList]
    ∧ splitEscaped "a\\\\,b".toList ',' = ["a\\".toList, "b".toList] := by
  refine ⟨?_, by decide, by decide⟩
  have hlast : items.getLast? ≠ some [] := fun h => hne [] (List.mem_of_getLast?_eq_some h) rfl
  have h := splitEscapedLoop_joinLast separator hsep items hlast []
  simpa [splitEscaped] using h

theorem splitEscaped_escape_roundtrip_witness :
    (',' : Char) ≠ '\\' ∧ (∀ item ∈ ["a,b".toList, "c\\".toList], item ≠ [])
    ∧ splitEscaped "a\\,b,c\\\\".toList ',' = ["a,b".toList, "c\\".toList] :=
  ⟨by decide, by decide,
    (splitEscaped_escape_roundtrip ',' (by decide) ["a,b".toList, "c\\".toList]
      (by decide)).1⟩

/-! ## Theorems: scalars, arrays and the chain -/

theorem dropWhile_eq_self_of_head {p : Char → Bool} :
    ∀ (l : List Char), (∀ c, l.head? = some c → p c = false) → l.dropWhile p = l := by
  intro l h
  cases l with
  | nil => rfl
  | cons a t => simp [List.dropWhile, h a (by simp)]

theorem head_dropWhile_not {p : Char → Bool} (l : List Char) :
    ∀ c, (l.dropWhile p).head? = some c → p c = false := by
  induction l with
  | nil => intro c h; simp at h
  | cons a t ih =>
    intro c h
    by_cases ha : p a = true
    · simp [List.dropWhile, ha] at h; exact ih c h
    · simp [List.dropWhile, ha] at h; subst h; simpa using ha

theorem dropWhile_append_singleton {p : Char → Bool} (a : Char) (ha : p a = false) :
    ∀ (l : List Char), (l ++ [a]).dropWhile p = l.dropWhile p ++ [a] := by
  intro l
  induction l with
  | nil => simp [List.dropWhile, ha]
  | cons b t ih =>
    by_cases hb : p b = true
    · simpa [List.dropWhile, hb] using ih
    · simp [List.dropWhile, hb]

theorem head_rdrop {p : Char → Bool} (l : List Char)
    (h : ∀ c, l.head? = some c → p c = false) :
    ∀ c, ((l.reverse.dropWhile p).reverse).head? = some c → p c = false := by
  intro c hc
  cases l with
  | nil => simp at hc
  | cons a t =>
    have ha : p a = false := h a (by simp)
    rw [List.reverse_cons, dropWhile_append_singleton a ha] at hc
    simp at hc
    subst hc
    exact ha

theorem TrimSpace_idem (s : Str) : TrimSpace (TrimSpace s) = TrimSpace s := by
  unfold TrimSpace
  have h1 := head_rdrop (p := isSpace) (s.dropWhile isSpace) (head_dropWhile_not s)
  rw [dropWhile_eq_self_of_head _ h1]
  simp only [List.reverse_reverse]
  rw [dropWhile_eq_self_of_head (p := isSpace) ((s.dropWhile isSpace).reverse.dropWhile isSpace)
    (head_dropWhile_not _)]

theorem Convert_eq_convertBody {F : Type} (ParseFloat : Str → Option F) (value : Str)
    (parameter : Parameter) :
    Convert ParseFloat value parameter
      = convertBody ParseFloat (convertUpTo ParseFloat parameter.depth) value parameter := rfl

theorem EqualFold_true_false (s : Str) (h : EqualFold s "true".toList = true) :
    EqualFold s "false".toList = false := by
  simp only [EqualFold, decide_eq_true_eq, decide_eq_false_iff_not] at h ⊢
  rw [h]
  decide

theorem Convert_boolean {F : Type} (ParseFloat : Str → Option F) (value : Str)
    (parameter : Parameter) (hty : parameter.Typ = .Boolean) :
    Convert ParseFloat value parameter = (convertToBoolean value parameter).map Value.bool := by
  rw [Convert_eq_convertBody]; simp only [convertBody, hty]

/-- C8: boolean conversion. On a boolean node `Convert` returns true exactly when the trimmed
text equals `true` under case folding, false exactly when it equals `false` under case
folding, and otherwise the error `Cannot convert '<name>' value '<raw text>' to boolean`,
which names the parameter and the raw value; so `TRUE` is true, `False` is false, and `yes`,
`1` and the empty text are errors. -/
theorem convertToBoolean_spec {F : Type} (ParseFloat : Str → Option F) (value : Str)
    (parameter : Parameter) (hty : parameter.Typ = .Boolean) :
    (Convert ParseFloat value parameter = .ok (.bool true)
        ↔ EqualFold (TrimSpace value) "true".toList = true)
    ∧ (Convert ParseFloat value parameter = .ok (.bool false)
        ↔ EqualFold (TrimSpace value) "false".toList = true)
    ∧ (EqualFold (TrimSpace value) "true".toList = false →
        EqualFold (TrimSpace value) "false".toList = false →
        Convert ParseFloat value parameter
          = .error ("Cannot convert '".toList ++ parameter.Name ++ "' value '".toList ++ value
              ++ "' to boolean".toList))
    ∧ Convert ParseFloat "TRUE".toList parameter = .ok (.bool true)
    ∧ Convert ParseFloat "False".toList parameter = .ok (.bool false)
    ∧ Convert ParseFloat "yes".toList parameter
        = .error ("Cannot convert '".toList ++ parameter.Name ++ "' value 'yes' to boolean".toList)
    ∧ Convert ParseFloat "1".toList parameter
        = .error ("Cannot convert '".toList ++ parameter.Name ++ "' value '1' to boolean".toList)
    ∧ Convert ParseFloat [] parameter
        = .error ("Cannot convert '".toList ++ parameter.Name ++ "' value '' to boolean".toList) := by
  have general : ∀ value : Str,
      (Convert ParseFloat value parameter = .ok (.bool true)
          ↔ EqualFold (TrimSpace value) "true".toList = true)
      ∧ (Convert ParseFloat value parameter = .ok (.bool false)
          ↔ EqualFold (TrimSpace value) "false".toList = true)
      ∧ (EqualFold (TrimSpace value) "true".toList = false →
          EqualFold (TrimSpace value) "false".toList = false →
          Convert ParseFloat value parameter
            = .error ("Cannot convert '".toList ++ parameter.Name ++ "' value '".toList ++ value
                ++ "' to boolean".toList)) := by
    intro value
    rw [Convert_boolean ParseFloat value parameter hty]
    have hex := EqualFold_true_false (TrimSpace value)
    have key : convertToBoolean value parameter
        = if EqualFold (TrimSpace value) "true".toList = true then .ok true
          else if EqualFold (TrimSpace value) "false".toList = true then .ok false
          else .error (cannotConvertValue parameter.Name value "boolean") := rfl
    have hmsg : cannotConvertValue parameter.Name value "boolean"
        = "Cannot convert '".toList ++ parameter.Name ++ "' value '".toList ++ value
            ++ "' to boolean".toList := by
      simp [cannotConvertValue]
    rw [key, hmsg]
    generalize EqualFold (TrimSpace value) "true".toList = b1 at hex ⊢
    generalize EqualFold (TrimSpace value) "false".toList = b2 at hex ⊢
    cases b1 <;> cases b2 <;> simp [Result.map] at hex ⊢
  refine ⟨(general value).1, (general value).2.1, (general value).2.2,
    (general _).1.2 (by decide), (general _).2.1.2 (by decide), ?_, ?_, ?_⟩
  · have h := (general "yes".toList).2.2 (by decide) (by decide)
    simpa using h
  · have h := (general "1".toList).2.2 (by decide) (by decide)
    simpa using h
  · have h := (general []).2.2 (by decide) (by decide)
    simpa using h

theorem convertToBoolean_spec_witness :
    (Parameter.mk "force".toList .Boolean []).Typ = .Boolean
    ∧ (Convert noFloats " tRuE ".toList (.mk "force".toList .Boolean []) = .ok (.bool true)
        ↔ EqualFold (TrimSpace " tRuE ".toList) "true".toList = true) :=
  ⟨rfl, (convertToBoolean_spec noFloats " tRuE ".toList (.mk "force".toList .Boolean []) rfl).1⟩

theorem Convert_integer {F : Type} (ParseFloat : Str → Option F) (value : Str)
    (parameter : Parameter) (hty : parameter.Typ = .Integer) :
    Convert ParseFloat value parameter = (convertToInteger value parameter).map Value.int := by
  rw [Convert_eq_convertBody]; simp only [convertBody, hty]

theorem Convert_number {F : Type} (ParseFloat : Str → Option F) (value : Str)
    (parameter : Parameter) (hty : parameter.Typ = .Number) :
    Convert ParseFloat value parameter
      = (convertToNumber ParseFloat value parameter).map Value.number := by
  rw [Convert_eq_convertBody]; simp only [convertBody, hty]

theorem Convert_string {F : Type} (ParseFloat : Str → Option F) (value : Str)
    (parameter : Parameter) (hty : parameter.Typ = .String) :
    Convert ParseFloat value parameter = .ok (.string value) := by
  rw [Convert_eq_convertBody]; simp only [convertBody, hty]

theorem trim_trim (x : Str) : trim (trim x) = trim x := TrimSpace_idem x

/-- The shape shared by the three trimming scalar conversions. -/
theorem scalar_trim_shape {α β : Type} (parse : Str → Option α) (wrap : α → β)
    (message : Str → Str) (x : Str) (conv : Str → Result β)
    (hconv : ∀ y, conv y = match parse (trim y) with
      | none => .error (message y)
      | some a => .ok (wrap a)) :
    (∀ v, conv (trim x) = .ok v ↔ conv x = .ok v)
    ∧ ((∃ e, conv (trim x) = .error e) ↔ (∃ e, conv x = .error e))
    ∧ (∀ e, conv x = .error e → e = message x ∧ conv (trim x) = .error (message (trim x))) := by
  rw [hconv x, hconv (trim x), trim_trim]
  cases parse (trim x) <;> simp

theorem convertToBoolean_shape (value : Str) (parameter : Parameter) :
    convertToBoolean value parameter
      = match (if EqualFold (trim value) "true".toList = true then some true
          else if EqualFold (trim value) "false".toList = true then some false else none) with
        | none => .error (cannotConvertValue parameter.Name value "boolean")
        | some b => .ok b := by
  simp only [convertToBoolean]
  split_ifs <;> rfl

/-- C9 (amended): trimming the text first does not change what a trimming scalar conversion
makes of it. On an integer, number or boolean node `Convert (trim x)` returns a value exactly
when `Convert x` does, and then the same value; they fail together, and each error quotes the
text that call was given (`x`, or `trim x`). On a string node `Convert` returns its text as it
is, untrimmed. -/
theorem Convert_trim_scalar {F : Type} (ParseFloat : Str → Option F) (x : Str)
    (parameter : Parameter) :
    (parameter.Typ = .Integer ∨ parameter.Typ = .Number ∨ parameter.Typ = .Boolean →
      (∀ v, Convert ParseFloat (trim x) parameter = .ok v
          ↔ Convert ParseFloat x parameter = .ok v)
      ∧ ((∃ e, Convert ParseFloat (trim x) parameter = .error e)
          ↔ (∃ e, Convert ParseFloat x parameter = .error e))
      ∧ (∀ e, Convert ParseFloat x parameter = .error e →
          ∃ target, e = cannotConvertValue parameter.Name x target
            ∧ Convert ParseFloat (trim x) parameter
                = .error (cannotConvertValue parameter.Name (trim x) target)))
    ∧ (parameter.Typ = .String →
        Convert ParseFloat x parameter = .ok (.string x)
        ∧ Convert ParseFloat (trim x) parameter = .ok (.string (trim x))) := by
  refine ⟨?_, fun h => ⟨Convert_string _ _ _ h, Convert_string _ _ _ h⟩⟩
  rintro (h | h | h)
  · have hs := scalar_trim_shape Atoi Value.int
      (fun y => cannotConvertValue parameter.Name y "integer") x
      (fun y => Convert ParseFloat y parameter) (by
        intro y; beta_reduce; rw [Convert_integer _ _ _ h]; unfold convertToInteger
        cases Atoi (trim y) <;> rfl)
    exact ⟨hs.1, hs.2.1, fun e he => ⟨"integer", hs.2.2 e he⟩⟩
  · have hs := scalar_trim_shape ParseFloat Value.number
      (fun y => cannotConvertValue parameter.Name y "number") x
      (fun y => Convert ParseFloat y parameter) (by
        intro y; beta_reduce; rw [Convert_number _ _ _ h]; unfold convertToNumber
        cases ParseFloat (trim y) <;> rfl)
    exact ⟨hs.1, hs.2.1, fun e he => ⟨"number", hs.2.2 e he⟩⟩
  · have hs := scalar_trim_shape
      (fun t => if EqualFold t "true".toList = true then some true
          else if EqualFold t "false".toList = true then some false else none) Value.bool
      (fun y => cannotConvertValue parameter.Name y "boolean") x
      (fun y => Convert ParseFloat y parameter) (by
        intro y; beta_reduce; rw [Convert_boolean _ _ _ h, convertToBoolean_shape]
        cases (if EqualFold (trim y) "true".toList = true then some true
          else if EqualFold (trim y) "false".toList = true then some false else none) <;> rfl)
    exact ⟨hs.1, hs.2.1, fun e he => ⟨"boolean", hs.2.2 e he⟩⟩

theorem Convert_trim_scalar_witness :
    (Parameter.mk "count".toList .Integer []).Typ = .Integer
    ∧ (∀ v, Convert noFloats (trim " 42 ".toList) (.mk "count".toList .Integer []) = .ok v
        ↔ Convert noFloats " 42 ".toList (.mk "count".toList .Integer []) = .ok v) :=
  ⟨rfl, ((Convert_trim_scalar noFloats " 42 ".toList (.mk "count".toList .Integer [])).1
    (Or.inl rfl)).1⟩

/-- C9 (as stated) fails: on a string node the text is returned untrimmed, so trimming first
changes the result; and on an integer node the two errors quote different texts. -/
theorem trim_idempotence_counterexample :
    Convert noFloats (trim " a".toList) (.mk "s".toList .String [])
        ≠ Convert noFloats " a".toList (.mk "s".toList .String [])
    ∧ Convert noFloats (trim " x".toList) (.mk "n".toList .Integer [])
        ≠ Convert noFloats " x".toList (.mk "n".toList .Integer []) := by
  constructor
  · intro h
    have h1 : Convert noFloats (trim " a".toList) (.mk "s".toList .String [])
        = .ok (.string "a".toList) := by rfl
    have h2 : Convert noFloats " a".toList (.mk "s".toList .String [])
        = .ok (.string " a".toList) := by rfl
    rw [h1, h2] at h
    simp at h
  · intro h
    have h1 : Convert noFloats (trim " x".toList) (.mk "n".toList .Integer [])
        = .error "Cannot convert 'n' value 'x' to integer".toList := by rfl
    have h2 : Convert noFloats " x".toList (.mk "n".toList .Integer [])
        = .error "Cannot convert 'n' value ' x' to integer".toList := by rfl
    rw [h1, h2] at h
    simp at h

theorem Convert_stringArray {F : Type} (ParseFloat : Str → Option F) (value : Str)
    (parameter : Parameter) (hty : parameter.Typ = .StringArray) :
    Convert ParseFloat value parameter = .ok (.stringArray (splitEscaped value ',')) := by
  rw [Convert_eq_convertBody]; simp only [convertBody, hty, convertToStringArray, Result.map]

/-- C6 (amended): string-array split. For strings free of commas and backslashes, the last of
them not empty, `Convert` of their comma-joined text on a string-array node yields as many
elements as there were strings, the i-th equal to converting the i-th string on its own on a
string node. -/
theorem convertToStringArray_join {F : Type} (ParseFloat : Str → Option F) (items : List Str)
    (parameter element : Parameter) (hty : parameter.Typ = .StringArray)
    (hel : element.Typ = .String)
    (hplain : ∀ item ∈ items, ',' ∉ item ∧ '\\' ∉ item)
    (hlast : items.getLast? ≠ some []) :
    ∃ elements, Convert ParseFloat (joinWith ',' items) parameter = .ok (.stringArray elements)
      ∧ elements.length = items.length
      ∧ ∀ i (hi : i < items.length) (he : i < elements.length),
          Convert ParseFloat items[i] element = .ok (.string elements[i]) := by
  refine ⟨items, ?_, rfl, ?_⟩
  · rw [Convert_stringArray _ _ _ hty,
      splitEscaped_joinWith_plain ',' (by decide) items hlast
        (fun item h => ⟨(hplain item h).2, (hplain item h).1⟩)]
  · intro i hi _
    exact Convert_string _ _ _ hel

theorem convertToStringArray_join_witness :
    ∃ elements, Convert noFloats (joinWith ',' ["a".toList, "b".toList, "c".toList])
        (.mk "tags".toList .StringArray []) = .ok (.stringArray elements)
      ∧ elements.length = 3
      ∧ ∀ i (hi : i < 3) (he : i < elements.length),
          Convert noFloats (["a".toList, "b".toList, "c".toList].get ⟨i, hi⟩)
            (.mk "tag".toList .String []) = .ok (.string elements[i]) :=
  convertToStringArray_join noFloats ["a".toList, "b".toList, "c".toList]
    (.mk "tags".toList .StringArray []) (.mk "tag".toList .String []) rfl rfl
    (by decide) (by decide)

/-- C6 (as stated) fails: the two strings `a` and the empty string join to `a,`, which converts
to the single element `a`, because the splitter drops an empty last item. -/
theorem convertToStringArray_counterexample :
    joinWith ',' ["a".toList, []] = "a,".toList
    ∧ Convert noFloats (joinWith ',' ["a".toList, []]) (.mk "tags".toList .StringArray [])
        = .ok (.stringArray ["a".toList])
    ∧ ["a".toList].length ≠ ["a".toList, ([] : Str)].length := by
  refine ⟨by rfl, by rfl, by decide⟩

theorem convertItems_ok {α : Type} (convertItem : Str → Result α) (failure : Str) :
    ∀ (items : List Str) (result : List α),
      (∀ item ∈ items, ∃ a, convertItem item = .ok a) →
      ∃ converted, convertItems convertItem failure items result = .ok (result ++ converted)
        ∧ List.Forall₂ (fun item a => convertItem item = .ok a) items converted := by
  intro items
  induction items with
  | nil => intro result _; exact ⟨[], by simp [convertItems], List.Forall₂.nil⟩
  | cons x xs ih =>
    intro result h
    obtain ⟨a, ha⟩ := h x (List.mem_cons_self _ _)
    obtain ⟨rest, hrest, hall⟩ := ih (result ++ [a]) (fun i hi => h i (List.mem_cons_of_mem _ hi))
    refine ⟨a :: rest, ?_, List.Forall₂.cons ha hall⟩
    simp [convertItems, ha, hrest]

theorem convertItems_error {α : Type} (convertItem : Str → Result α) (failure : Str)
    (hpanic : ∀ item, convertItem item ≠ .panic) :
    ∀ (items : List Str) (result : List α),
      (∃ item ∈ items, ∀ a, convertItem item ≠ .ok a) →
      convertItems convertItem failure items result = .error failure := by
  intro items
  induction items with
  | nil => intro result h; obtain ⟨_, hm, _⟩ := h; simp at hm
  | cons x xs ih =>
    intro result h
    cases hx : convertItem x with
    | ok a =>
      simp only [convertItems, hx]
      apply ih
      obtain ⟨item, hm, hbad⟩ := h
      rcases List.mem_cons.1 hm with rfl | hm
      · exact absurd hx (hbad a)
      · exact ⟨item, hm, hbad⟩
    | error e => simp [convertItems, hx]
    | panic => exact absurd hx (hpanic x)

theorem convertToInteger_ne_panic (value : Str) (parameter : Parameter) :
    convertToInteger value parameter ≠ .panic := by
  unfold convertToInteger
  cases Atoi (trim value) <;> simp

theorem convertToBoolean_ne_panic (value : Str) (parameter : Parameter) :
    convertToBoolean value parameter ≠ .panic := by
  rw [convertToBoolean_shape]
  split <;> simp

theorem Convert_integerArray {F : Type} (ParseFloat : Str → Option F) (value : Str)
    (parameter : Parameter) (hty : parameter.Typ = .IntegerArray) :
    Convert ParseFloat value parameter
      = (convertToIntegerArray value parameter).map Value.integerArray := by
  rw [Convert_eq_convertBody]; simp only [convertBody, hty]

theorem Convert_booleanArray {F : Type} (ParseFloat : Str → Option F) (value : Str)
    (parameter : Parameter) (hty : parameter.Typ = .BooleanArray) :
    Convert ParseFloat value parameter
      = (convertToBooleanArray value parameter).map Value.booleanArray := by
  rw [Convert_eq_convertBody]; simp only [convertBody, hty]

/-- C7: typed arrays convert element-wise or fail as a whole. On an integer-array node, when
every item of the comma split converts as an integer, `Convert` returns the converted items in
split order; when some item does not, it returns the error
`Cannot convert '<name>' values '<full text>' to integer array` and no list. The same holds on
a boolean-array node with `boolean array`. -/
theorem typed_array_all_or_nothing {F : Type} (ParseFloat : Str → Option F) (value : Str)
    (parameter : Parameter) :
    (parameter.Typ = .IntegerArray →
      ((∃ v, Convert ParseFloat value parameter = .ok v)
        ↔ ∀ item ∈ splitEscaped value ',', ∃ n, convertToInteger item parameter = .ok n)
      ∧ ((∀ item ∈ splitEscaped value ',', ∃ n, convertToInteger item parameter = .ok n) →
        ∃ ns, Convert ParseFloat value parameter = .ok (.integerArray ns)
          ∧ List.Forall₂ (fun item n => convertToInteger item parameter = .ok n)
              (splitEscaped value ',') ns)
      ∧ ((∃ item ∈ splitEscaped value ',', ∀ n, convertToInteger item parameter ≠ .ok n) →
        Convert ParseFloat value parameter
          = .error ("Cannot convert '".toList ++ parameter.Name ++ "' values '".toList ++ value
              ++ "' to integer array".toList)))
    ∧ (parameter.Typ = .BooleanArray →
      ((∃ v, Convert ParseFloat value parameter = .ok v)
        ↔ ∀ item ∈ splitEscaped value ',', ∃ b, convertToBoolean item parameter = .ok b)
      ∧ ((∀ item ∈ splitEscaped value ',', ∃ b, convertToBoolean item parameter = .ok b) →
        ∃ bs, Convert ParseFloat value parameter = .ok (.booleanArray bs)
          ∧ List.Forall₂ (fun item b => convertToBoolean item parameter = .ok b)
              (splitEscaped value ',') bs)
      ∧ ((∃ item ∈ splitEscaped value ',', ∀ b, convertToBoolean item parameter ≠ .ok b) →
        Convert ParseFloat value parameter
          = .error ("Cannot convert '".toList ++ parameter.Name ++ "' values '".toList ++ value
              ++ "' to boolean array".toList))) := by
  have hint : ∀ hty : parameter.Typ = .IntegerArray,
      ((∀ item ∈ splitEscaped value ',', ∃ n, convertToInteger item parameter = .ok n) →
        ∃ ns, Convert ParseFloat value parameter = .ok (.integerArray ns)
          ∧ List.Forall₂ (fun item n => convertToInteger item parameter = .ok n)
              (splitEscaped value ',') ns)
      ∧ ((∃ item ∈ splitEscaped value ',', ∀ n, convertToInteger item parameter ≠ .ok n) →
        Convert ParseFloat value parameter
          = .error ("Cannot convert '".toList ++ parameter.Name ++ "' values '".toList ++ value
              ++ "' to integer array".toList)) := by
    intro hty
    refine ⟨fun hall => ?_, fun hbad => ?_⟩
    · obtain ⟨ns, hns, hf⟩ := convertItems_ok (fun itemStr => convertToInteger itemStr parameter)
        (cannotConvertValues parameter.Name value "integer array") (splitEscaped value ',') []
        hall
      refine ⟨ns, ?_, hf⟩
      rw [Convert_integerArray _ _ _ hty]
      unfold convertToIntegerArray
      rw [hns]; rfl
    · rw [Convert_integerArray _ _ _ hty]
      unfold convertToIntegerArray
      rw [convertItems_error _ _ (fun item => convertToInteger_ne_panic item parameter) _ _ hbad]
      simp [Result.map, cannotConvertValues]
  have hbool : ∀ hty : parameter.Typ = .BooleanArray,
      ((∀ item ∈ splitEscaped value ',', ∃ b, convertToBoolean item parameter = .ok b) →
        ∃ bs, Convert ParseFloat value parameter = .ok (.booleanArray bs)
          ∧ List.Forall₂ (fun item b => convertToBoolean item parameter = .ok b)
              (splitEscaped value ',') bs)
      ∧ ((∃ item ∈ splitEscaped value ',', ∀ b, convertToBoolean item parameter ≠ .ok b) →
        Convert ParseFloat value parameter
          = .error ("Cannot convert '".toList ++ parameter.Name ++ "' values '".toList ++ value
              ++ "' to boolean array".toList)) := by
    intro hty
    refine ⟨fun hall => ?_, fun hbad => ?_⟩
    · obtain ⟨bs, hbs, hf⟩ := convertItems_ok (fun itemStr => convertToBoolean itemStr parameter)
        (cannotConvertValues parameter.Name value "boolean array") (splitEscaped value ',') []
        hall
      refine ⟨bs, ?_, hf⟩
      rw [Convert_booleanArray _ _ _ hty]
      unfold convertToBooleanArray
      rw [hbs]; rfl
    · rw [Convert_booleanArray _ _ _ hty]
      unfold convertToBooleanArray
      rw [convertItems_error _ _ (fun item => convertToBoolean_ne_panic item parameter) _ _ hbad]
      simp [Result.map, cannotConvertValues]
  refine ⟨fun hty => ⟨⟨fun hok => ?_, fun hall => ?_⟩, hint hty⟩,
    fun hty => ⟨⟨fun hok => ?_, fun hall => ?_⟩, hbool hty⟩⟩
  · by_contra hnot
    simp only [not_forall, not_exists] at hnot
    obtain ⟨item, hmem, hbad⟩ := hnot
    obtain ⟨v, hv⟩ := hok
    rw [(hint hty).2 ⟨item, hmem, hbad⟩] at hv
    cases hv
  · obtain ⟨ns, hns, _⟩ := (hint hty).1 hall
    exact ⟨_, hns⟩
  · by_contra hnot
    simp only [not_forall, not_exists] at hnot
    obtain ⟨item, hmem, hbad⟩ := hnot
    obtain ⟨v, hv⟩ := hok
    rw [(hbool hty).2 ⟨item, hmem, hbad⟩] at hv
    cases hv
  · obtain ⟨bs, hbs, _⟩ := (hbool hty).1 hall
    exact ⟨_, hbs⟩

theorem typed_array_all_or_nothing_witness :
    (Parameter.mk "ids".toList .IntegerArray []).Typ = .IntegerArray
    ∧ (∃ item ∈ splitEscaped "1,x".toList ',',
        ∀ n, convertToInteger item (.mk "ids".toList .IntegerArray []) ≠ .ok n)
    ∧ Convert noFloats "1,x".toList (.mk "ids".toList .IntegerArray [])
        = .error ("Cannot convert '".toList ++ "ids".toList ++ "' values '".toList
            ++ "1,x".toList ++ "' to integer array".toList) :=
  have hbad : ∃ item ∈ splitEscaped "1,x".toList ',',
      ∀ n, convertToInteger item (.mk "ids".toList .IntegerArray []) ≠ .ok n :=
    ⟨"x".toList, by decide, fun n h => by
      have hx : convertToInteger "x".toList (.mk "ids".toList .IntegerArray [])
          = .error "Cannot convert 'ids' value 'x' to integer".toList := by rfl
      rw [hx] at h
      cases h⟩
  ⟨rfl, hbad,
    ((typed_array_all_or_nothing noFloats "1,x".toList
      (.mk "ids".toList .IntegerArray [])).1 rfl).2.2 hbad⟩

theorem mapGet_mapSet {β : Type} (m : List (Str × β)) (key : Str) (value : β) (k : Str) :
    mapGet (mapSet m key value) k = if key = k then some value else mapGet m k := by
  induction m with
  | nil => simp [mapSet, mapGet]
  | cons e rest ih =>
    obtain ⟨k0, v0⟩ := e
    by_cases h0 : k0 = key
    · subst h0
      by_cases hk : k0 = k <;> simp [mapSet, mapGet, hk]
    · by_cases hk : k0 = k
      · subst hk
        simp [mapSet, mapGet, h0, Ne.symm h0]
      · simp [mapSet, mapGet, h0, hk, ih]

theorem mapGet_mergeHeader_of_not_mem (k : Str) :
    ∀ (added header : Header), (∀ v, (k, v) ∉ added) →
      mapGet (mergeHeader header added) k = mapGet header k := by
  intro added
  induction added with
  | nil => intro header _; rfl
  | cons e rest ih =>
    intro header h
    obtain ⟨k0, v0⟩ := e
    have hne : k0 ≠ k := by
      rintro rfl
      exact h v0 (List.mem_cons_self _ _)
    simp only [mergeHeader]
    rw [ih _ (fun v hv => h v (List.mem_cons_of_mem _ hv)), mapGet_mapSet, if_neg hne]

theorem mapGet_mergeHeader_of_mem (k v : Str) :
    ∀ (added header : Header), (added.map Prod.fst).Nodup → (k, v) ∈ added →
      mapGet (mergeHeader header added) k = some v := by
  intro added
  induction added with
  | nil => intro header _ h; simp at h
  | cons e rest ih =>
    intro header hnd h
    obtain ⟨k0, v0⟩ := e
    simp only [List.map_cons, List.nodup_cons] at hnd
    simp only [mergeHeader]
    rcases List.mem_cons.1 h with heq | hmem
    · cases heq
      rw [mapGet_mergeHeader_of_not_mem, mapGet_mapSet, if_pos rfl]
      intro v' hv'
      exact hnd.1 (List.mem_map.2 ⟨(k, v'), hv', rfl⟩)
    · exact ih _ hnd.2 hmem

theorem executeAuthenticatorsLoop_fold :
    ∀ (authenticators : List Authenticator) (ctx : AuthenticatorContext),
      (∀ pre a post, authenticators = pre ++ a :: post →
        (a (pre.foldl chainStep ctx)).Error = []) →
      executeAuthenticatorsLoop authenticators ctx
        = .ok (AuthenticatorSuccess (authenticators.foldl chainStep ctx).Request.Header
            (authenticators.foldl chainStep ctx).Config) := by
  intro authenticators
  induction authenticators with
  | nil => intro ctx _; rfl
  | cons a rest ih =>
    intro ctx h
    have ha : (a ctx).Error = [] := h [] a rest rfl
    have hrest : ∀ pre b post, rest = pre ++ b :: post →
        (b (pre.foldl chainStep (chainStep ctx a))).Error = [] := by
      intro pre b post hsplit
      have := h (a :: pre) b post (by simp [hsplit])
      simpa using this
    have := ih (chainStep ctx a) hrest
    simp only [executeAuthenticatorsLoop, ha, ne_eq, not_true_eq_false, if_false, List.foldl_cons]
    exact this

/-- C10: the chain runner is a left fold. When no step of the chain returns an error,
`executeAuthenticators` returns `Success` of the state obtained by folding `chainStep` over the
authenticators from the caller's configuration and an empty header set. Merging headers keeps
an entry whose key the step did not return and takes the returned value for a key it did
return. For [A disabled, B sets H1 and K, C enabled when K is set] the result has H1 and C was
enabled, which it is not when C runs before B. -/
theorem executeAuthenticators_fold (authenticators : List Authenticator) (baseUri : Str)
    (authConfig : AuthConfig) (debug insecure : Bool)
    (hok : ∀ pre a post, authenticators = pre ++ a :: post →
      (a (pre.foldl chainStep (initialContext baseUri authConfig debug insecure))).Error = []) :
    executeAuthenticators authenticators baseUri authConfig debug insecure
      = .ok (AuthenticatorSuccess
          (authenticators.foldl chainStep
            (initialContext baseUri authConfig debug insecure)).Request.Header
          (authenticators.foldl chainStep
            (initialContext baseUri authConfig debug insecure)).Config)
    ∧ (∀ (header added : Header) (k : Str), (∀ v, (k, v) ∉ added) →
        mapGet (mergeHeader header added) k = mapGet header k)
    ∧ (∀ (header added : Header) (k v : Str), (added.map Prod.fst).Nodup → (k, v) ∈ added →
        mapGet (mergeHeader header added) k = some v)
    ∧ executeAuthenticators [sampleDisabled, sampleSetter, sampleDependent] baseUri
        { Typ := authConfig.Typ, Config := [] } debug insecure
      = .ok (AuthenticatorSuccess
          [("H1".toList, "one".toList), ("H2".toList, "two".toList)]
          [("K".toList, .string "set".toList)])
    ∧ executeAuthenticators [sampleDisabled, sampleDependent, sampleSetter] baseUri
        { Typ := authConfig.Typ, Config := [] } debug insecure
      = .ok (AuthenticatorSuccess [("H1".toList, "one".toList)]
          [("K".toList, .string "set".toList)]) := by
  refine ⟨?_, fun header added k h => mapGet_mergeHeader_of_not_mem k added header h,
    fun header added k v hnd h => mapGet_mergeHeader_of_mem k v added header hnd h, by rfl, by rfl⟩
  exact executeAuthenticatorsLoop_fold authenticators _ hok

theorem executeAuthenticators_fold_witness :
    executeAuthenticators [sampleDisabled, sampleSetter, sampleDependent] "https://cloud".toList
        { Typ := "login".toList, Config := [] } false false
      = .ok (AuthenticatorSuccess
          ([sampleDisabled, sampleSetter, sampleDependent].foldl chainStep
            (initialContext "https://cloud".toList { Typ := "login".toList, Config := [] }
              false false)).Request.Header
          ([sampleDisabled, sampleSetter, sampleDependent].foldl chainStep
            (initialContext "https://cloud".toList { Typ := "login".toList, Config := [] }
              false false)).Config) :=
  (executeAuthenticators_fold [sampleDisabled, sampleSetter, sampleDependent]
    "https://cloud".toList { Typ := "login".toList, Config := [] } false false (by
      intro pre a post h
      rcases pre with _ | ⟨p1, _ | ⟨p2, _ | ⟨p3, pre⟩⟩⟩
      · simp at h; obtain ⟨rfl, -⟩ := h; rfl
      · simp at h; obtain ⟨-, rfl, -⟩ := h; rfl
      · simp at h; obtain ⟨rfl, rfl, rfl, -⟩ := h; rfl
      · simp at h)).1

/-! ## Theorems: the recursion of `Convert` reaches every schema level -/

theorem depth_le_depthList (r : Parameter) :
    ∀ (ps : List Parameter), r ∈ ps → r.depth ≤ Parameter.depthList ps := by
  intro ps
  induction ps with
  | nil => intro h; simp at h
  | cons p ps ih =>
    intro h
    simp only [Parameter.depthList]
    rcases List.mem_cons.1 h with rfl | h
    · exact le_max_left _ _
    · exact le_trans (ih h) (le_max_right _ _)

theorem depth_findParameter (c r : Parameter) (key : Str)
    (h : findParameter (some c) key = some r) : r.depth < c.depth := by
  cases c with
  | mk n t ps =>
    simp only [findParameter, Parameter.Parameters] at h
    have hmem : r ∈ ps := List.mem_of_find?_eq_some h
    have := depth_le_depthList r ps hmem
    simp only [Parameter.depth]
    omega

section Levels

variable {F : Type}

theorem assignToObject_congr (conv1 conv2 : Str → Parameter → Result (Value F)) (d : Nat)
    (hconv : ∀ (r : Parameter) (v : Str), r.depth < d → conv1 v r = conv2 v r) (name : Str)
    (value : Str) :
    ∀ (keys : List Str) (obj : Obj F) (cur : Option Parameter),
      (∀ c, cur = some c → c.depth ≤ d) →
      assignToObject conv1 name obj keys value cur
        = assignToObject conv2 name obj keys value cur := by
  intro keys
  induction keys with
  | nil => intro obj cur _; rfl
  | cons key rest ih =>
    intro obj cur hcur
    have hnext : ∀ r, findParameter cur key = some r → r.depth < d := by
      intro r hr
      cases cur with
      | none => simp [findParameter] at hr
      | some c => exact lt_of_lt_of_le (depth_findParameter c r key hr) (hcur c rfl)
    have htry : tryConvert conv1 value (findParameter cur key)
        = tryConvert conv2 value (findParameter cur key) := by
      cases hf : findParameter cur key with
      | none => rfl
      | some r => exact hconv r value (hnext r hf)
    have hrec : ∀ child, assignToObject conv1 name child rest value (findParameter cur key)
        = assignToObject conv2 name child rest value (findParameter cur key) :=
      fun child => ih child _ (fun r hr => le_of_lt (hnext r hr))
    simp only [assignToObject, htry, hrec]

theorem convertToObjectLoop_congr (conv1 conv2 : Str → Parameter → Result (Value F))
    (parameter : Parameter)
    (hconv : ∀ (r : Parameter) (v : Str), r.depth < parameter.depth → conv1 v r = conv2 v r) :
    ∀ (assigns : List Str) (obj : Obj F),
      convertToObjectLoop conv1 parameter assigns obj
        = convertToObjectLoop conv2 parameter assigns obj := by
  intro assigns
  induction assigns with
  | nil => intro obj; rfl
  | cons assign rest ih =>
    intro obj
    have h : ∀ keys value, assignToObject conv1 parameter.Name obj keys value (some parameter)
        = assignToObject conv2 parameter.Name obj keys value (some parameter) :=
      fun keys value => assignToObject_congr conv1 conv2 parameter.depth hconv _ value keys obj _
        (fun c hc => by cases hc; exact le_refl _)
    simp only [convertToObjectLoop, h, ih]

theorem convertToObject_congr (conv1 conv2 : Str → Parameter → Result (Value F))
    (parameter : Parameter)
    (hconv : ∀ (r : Parameter) (v : Str), r.depth < parameter.depth → conv1 v r = conv2 v r)
    (value : Str) :
    convertToObject conv1 value parameter = convertToObject conv2 value parameter := by
  simp only [convertToObject, convertToObjectLoop_congr conv1 conv2 parameter hconv]

theorem convertBody_congr (ParseFloat : Str → Option F)
    (conv1 conv2 : Str → Parameter → Result (Value F)) (parameter : Parameter)
    (hconv : ∀ (r : Parameter) (v : Str), r.depth < parameter.depth → conv1 v r = conv2 v r)
    (value : Str) :
    convertBody ParseFloat conv1 value parameter = convertBody ParseFloat conv2 value parameter := by
  have hobj : ∀ v, convertToObject conv1 v parameter = convertToObject conv2 v parameter :=
    convertToObject_congr conv1 conv2 parameter hconv
  simp only [convertBody, convertToObjectArray, hobj]

theorem convertUpTo_stable (ParseFloat : Str → Option F) :
    ∀ (n : Nat) (value : Str) (parameter : Parameter), parameter.depth + 1 ≤ n →
      convertUpTo ParseFloat n value parameter = Convert ParseFloat value parameter := by
  intro n
  induction n using Nat.strong_induction_on with
  | _ n ih =>
    intro value parameter hn
    cases n with
    | zero => omega
    | succ m =>
      rw [Convert_eq_convertBody]
      show convertBody ParseFloat (convertUpTo ParseFloat m) value parameter = _
      apply convertBody_congr
      intro r v hr
      rw [ih m (Nat.lt_succ_self m) v r (by omega)]
      rw [ih parameter.depth (by omega) v r (by omega)]

/-- The recursive call of `Convert` on a child node, made with the remaining levels, is
`Convert` on the child. -/
theorem convertUpTo_depth (ParseFloat : Str → Option F) (parameter r : Parameter) (v : Str)
    (hr : r.depth < parameter.depth) :
    convertUpTo ParseFloat parameter.depth v r = Convert ParseFloat v r :=
  convertUpTo_stable ParseFloat parameter.depth v r (by omega)

end Levels

/-! ## Theorems: object conversion -/

section ObjectTheorems

variable {F : Type}

theorem mapSet_mapSet {β : Type} (m : List (Str × β)) (key : Str) (a b : β) :
    mapSet (mapSet m key a) key b = mapSet m key b := by
  induction m with
  | nil => simp [mapSet]
  | cons e rest ih =>
    obtain ⟨k0, v0⟩ := e
    by_cases h0 : k0 = key
    · simp [mapSet, h0]
    · simp [mapSet, h0, ih]

theorem freeAt_nil (keys : List Str) : freeAt ([] : Obj F) keys = true := by
  match keys with
  | [] => rfl
  | [_] => rfl
  | _ :: _ :: _ => rfl

theorem findPath_cons (cur : Option Parameter) (key : Str) (rest : List Str) :
    findPath cur (key :: rest) = findPath (findParameter cur key) rest := rfl

/-- What `assignToObject` does on a free key path: it converts the value by the schema child
at the path and puts the result there. -/
theorem assignToObject_free (conv : Str → Parameter → Result (Value F)) (name value : Str) :
    ∀ (keys : List Str) (obj : Obj F) (cur : Option Parameter), keys ≠ [] →
      freeAt obj keys = true →
      assignToObject conv name obj keys value cur
        = (tryConvert conv value (findPath cur keys)).map (insertAt obj keys) := by
  intro keys
  induction keys with
  | nil => intro obj cur h; exact absurd rfl h
  | cons key rest ih =>
    intro obj cur _ hfree
    cases rest with
    | nil =>
      simp only [freeAt, Option.isNone_iff_eq_none] at hfree
      rw [assignToObject]
      simp only [hfree, List.isEmpty_nil, Option.isSome_none, Bool.false_eq_true,
        and_false, if_false, if_true, findPath, List.foldl, insertAt]
      cases tryConvert conv value (findParameter cur key) <;>
        simp [Result.map, mapSet_mapSet]
    | cons next rest =>
      have hlast : (next :: rest).isEmpty = false := rfl
      rw [assignToObject, findPath_cons]
      simp only [hlast, Bool.false_eq_true, false_and, if_false]
      cases hget : mapGet obj key with
      | none =>
        have hih := ih [] (findParameter cur key) (by simp) (freeAt_nil _)
        generalize tryConvert conv value (findPath (findParameter cur key) (next :: rest)) = t
          at hih ⊢
        simp only [Option.isSome_none, Bool.false_eq_true, if_false, mapGet_mapSet, if_true,
          hih, insertAt, childAt, hget]
        cases t <;> simp [Result.map, mapSet_mapSet]
      | some child =>
        cases child with
        | object fields =>
          have hf : freeAt fields (next :: rest) = true := by
            simpa [freeAt, hget] using hfree
          have hih := ih fields (findParameter cur key) (by simp) hf
          generalize tryConvert conv value (findPath (findParameter cur key) (next :: rest)) = t
            at hih ⊢
          simp only [Option.isSome_some, if_true, hget, hih, insertAt, childAt]
          cases t <;> simp [Result.map]
        | _ => simp [freeAt, hget] at hfree

theorem valueAt_object_cons (obj : Obj F) (key : Str) (rest : List Str) :
    valueAt (.object obj) (key :: rest)
      = match mapGet obj key with
        | some child => valueAt child rest
        | none => none := rfl

theorem valueAt_nil_object (keys : List Str) (h : keys ≠ []) :
    valueAt (.object ([] : Obj F)) keys = none := by
  cases keys with
  | nil => exact absurd rfl h
  | cons k r => rfl

theorem mapGet_insertAt_ne (obj : Obj F) (key : Str) (rest : List Str) (value : Value F)
    (k : Str) (h : key ≠ k) : mapGet (insertAt obj (key :: rest) value) k = mapGet obj k := by
  cases rest with
  | nil => simp [insertAt, mapGet_mapSet, h]
  | cons next rest => simp [insertAt, mapGet_mapSet, h]

/-- After the insertion the value is found at the end of its key path. -/
theorem valueAt_insertAt_self (value : Value F) :
    ∀ (keys : List Str) (obj : Obj F), keys ≠ [] →
      valueAt (.object (insertAt obj keys value)) keys = some value := by
  intro keys
  induction keys with
  | nil => intro obj h; exact absurd rfl h
  | cons key rest ih =>
    intro obj _
    cases rest with
    | nil => simp [insertAt, valueAt_object_cons, mapGet_mapSet, valueAt]
    | cons next rest =>
      rw [valueAt_object_cons]
      simp only [insertAt, mapGet_mapSet, if_true]
      exact ih _ (by simp)

/-- The insertion leaves alone every key path that neither leads to the inserted path nor
continues it. -/
theorem valueAt_insertAt_other (value : Value F) :
    ∀ (keys : List Str) (obj : Obj F) (ks : List Str), freeAt obj keys = true → ks ≠ [] →
      ¬ ks <+: keys → ¬ keys <+: ks →
      valueAt (.object (insertAt obj keys value)) ks = valueAt (.object obj) ks := by
  intro keys
  induction keys with
  | nil => intro obj ks _ _ _ h; exact absurd List.nil_prefix h
  | cons key rest ih =>
    intro obj ks hfree hks h1 h2
    cases ks with
    | nil => exact absurd rfl hks
    | cons k ks' =>
      by_cases hk : key = k
      · subst hk
        have h1' : ¬ ks' <+: rest := fun h => h1 (List.cons_prefix_cons.2 ⟨rfl, h⟩)
        have h2' : ¬ rest <+: ks' := fun h => h2 (List.cons_prefix_cons.2 ⟨rfl, h⟩)
        cases rest with
        | nil => exact absurd List.nil_prefix h2'
        | cons next rest =>
          have hks' : ks' ≠ [] := by
            rintro rfl
            exact h1' List.nil_prefix
          rw [valueAt_object_cons, valueAt_object_cons]
          simp only [insertAt, mapGet_mapSet, if_true]
          cases hget : mapGet obj key with
          | none =>
            simp only [childAt, hget]
            rw [ih [] ks' (freeAt_nil _) hks' h1' h2']
            exact valueAt_nil_object ks' hks'
          | some child =>
            cases child with
            | object fields =>
              have hf : freeAt fields (next :: rest) = true := by
                simpa [freeAt, hget] using hfree
              simp only [childAt, hget]
              exact ih fields ks' hf hks' h1' h2'
            | _ => simp [freeAt, hget] at hfree
      · rw [valueAt_object_cons, valueAt_object_cons, mapGet_insertAt_ne obj key rest value k hk]

/-- After the insertion every key path that leads to the inserted path, short of its end, holds
a nested mapping. -/
theorem valueAt_insertAt_above (value : Value F) :
    ∀ (keys : List Str) (obj : Obj F) (ks : List Str), ks ≠ [] → ks <+: keys → ks ≠ keys →
      ∃ m, valueAt (.object (insertAt obj keys value)) ks = some (.object m) := by
  intro keys
  induction keys with
  | nil =>
    intro obj ks hks hpre _
    exact absurd (List.prefix_nil.1 hpre) hks
  | cons key rest ih =>
    intro obj ks hks hpre hne
    cases ks with
    | nil => exact absurd rfl hks
    | cons k ks' =>
      obtain ⟨hk, hpre'⟩ := List.cons_prefix_cons.1 hpre
      subst hk
      have hne' : ks' ≠ rest := fun h => hne (by rw [h])
      cases rest with
      | nil => exact absurd (List.prefix_nil.1 hpre') hne'
      | cons next rest =>
        rw [valueAt_object_cons]
        simp only [insertAt, mapGet_mapSet, if_true]
        by_cases hnil : ks' = []
        · subst hnil
          exact ⟨_, rfl⟩
        · exact ih _ ks' hnil hpre' hne'

/-- A key path is free when nothing is set at its end and whatever is set on the way to it is a
nested mapping. -/
theorem freeAt_of_valueAt :
    ∀ (keys : List Str) (obj : Obj F), valueAt (.object obj) keys = none →
      (∀ ks, ks ≠ [] → ks <+: keys → ks ≠ keys → valueAt (.object obj) ks ≠ none →
        ∃ m, valueAt (.object obj) ks = some (.object m)) →
      freeAt obj keys = true := by
  intro keys
  induction keys with
  | nil => intro obj h _; simp [valueAt] at h
  | cons key rest ih =>
    intro obj hend habove
    cases rest with
    | nil =>
      rw [valueAt_object_cons] at hend
      cases hget : mapGet obj key with
      | none => simp [freeAt, hget]
      | some child => simp [hget, valueAt] at hend
    | cons next rest =>
      cases hget : mapGet obj key with
      | none => simp [freeAt, hget]
      | some child =>
        have hone : valueAt (.object obj) [key] = some child := by
          simp [valueAt_object_cons, hget, valueAt]
        obtain ⟨m, hm⟩ := habove [key] (by simp) (List.cons_prefix_cons.2 ⟨rfl, List.nil_prefix⟩)
          (by simp) (by simp [hone])
        rw [hone] at hm
        cases hm
        have hend' : valueAt (.object m) (next :: rest) = none := by
          rw [valueAt_object_cons, hget] at hend
          exact hend
        have := ih m hend' (by
          intro ks hks hpre hne hval
          have h := habove (key :: ks) (by simp) (List.cons_prefix_cons.2 ⟨rfl, hpre⟩)
            (by simpa using hne) (by rw [valueAt_object_cons, hget]; exact hval)
          rw [valueAt_object_cons, hget] at h
          exact h)
        simpa [freeAt, hget] using this

theorem mem_joinWith (separator c : Char) :
    ∀ (items : List Str), c ∈ joinWith separator items →
      c = separator ∨ ∃ item ∈ items, c ∈ item := by
  intro items
  induction items with
  | nil => intro h; simp [joinWith] at h
  | cons x xs ih =>
    intro h
    cases xs with
    | nil => exact Or.inr ⟨x, by simp, by simpa [joinWith] using h⟩
    | cons y ys =>
      simp only [joinWith, List.mem_append, List.mem_cons] at h
      rcases h with h | h | h
      · exact Or.inr ⟨x, by simp, h⟩
      · exact Or.inl h
      · rcases ih h with h | ⟨item, hi, hc⟩
        · exact Or.inl h
        · exact Or.inr ⟨item, List.mem_cons_of_mem _ hi, hc⟩

theorem not_mem_joinWith (separator c : Char) (items : List Str) (hsep : c ≠ separator)
    (h : ∀ item ∈ items, c ∉ item) : c ∉ joinWith separator items := by
  intro hc
  rcases mem_joinWith separator c items hc with h1 | ⟨item, hi, hci⟩
  · exact hsep h1
  · exact h item hi hci

theorem getLast?_ne_nil_of_all (items : List Str) (h : ∀ item ∈ items, item ≠ []) :
    items.getLast? ≠ some [] := fun hl => h [] (List.mem_of_getLast?_eq_some hl) rfl

/-- The three splits of `convertToObject` on a well-formed clause. -/
theorem splitEscaped_clauseText (clause : List Str × Str)
    (hseg : ∀ seg ∈ clause.1, seg ≠ [] ∧ plainText seg)
    (hval : clause.2 ≠ [] ∧ plainText clause.2) :
    splitEscaped (clauseText clause) '=' = [joinWith '.' clause.1, clause.2]
    ∧ splitEscaped (joinWith '.' clause.1) '.' = clause.1 := by
  constructor
  · have hj : clauseText clause = joinWith '=' [joinWith '.' clause.1, clause.2] := rfl
    rw [hj]
    apply splitEscaped_joinWith_plain '=' (by decide)
    · simpa using hval.1
    · intro item hitem
      simp only [List.mem_cons, List.mem_singleton, List.not_mem_nil, or_false] at hitem
      rcases hitem with rfl | rfl
      · exact ⟨not_mem_joinWith '.' '\\' _ (by decide) (fun s hs => (hseg s hs).2.1),
          not_mem_joinWith '.' '=' _ (by decide) (fun s hs => (hseg s hs).2.2.2.1)⟩
      · exact ⟨hval.2.1, hval.2.2.2.1⟩
  · apply splitEscaped_joinWith_plain '.' (by decide)
    · exact getLast?_ne_nil_of_all _ (fun s hs => (hseg s hs).1)
    · intro item hitem
      exact ⟨(hseg item hitem).2.1, (hseg item hitem).2.2.2.2⟩

theorem splitEscaped_objectText (clauses : List (List Str × Str))
    (hseg : ∀ c ∈ clauses, ∀ seg ∈ c.1, seg ≠ [] ∧ plainText seg)
    (hval : ∀ c ∈ clauses, c.2 ≠ [] ∧ plainText c.2) :
    splitEscaped (objectText clauses) ';' = clauses.map clauseText := by
  apply splitEscaped_joinWith_plain ';' (by decide)
  · apply getLast?_ne_nil_of_all
    intro item hitem
    obtain ⟨c, _, rfl⟩ := List.mem_map.1 hitem
    simp [clauseText]
  · intro item hitem
    obtain ⟨c, hc, rfl⟩ := List.mem_map.1 hitem
    have hv := (hval c hc).2
    constructor
    · intro hmem
      simp only [clauseText, List.mem_append, List.mem_cons] at hmem
      rcases hmem with h | h | h
      · exact not_mem_joinWith '.' '\\' _ (by decide) (fun s hs => (hseg c hc s hs).2.1) h
      · exact absurd h (by decide)
      · exact hv.1 h
    · intro hmem
      simp only [clauseText, List.mem_append, List.mem_cons] at hmem
      rcases hmem with h | h | h
      · exact not_mem_joinWith '.' ';' _ (by decide) (fun s hs => (hseg c hc s hs).2.2.1) h
      · exact absurd h (by decide)
      · exact hv.2.1 h

/-- One round of the loop of `convertToObject` on a well-formed clause is the assignment of
its value at its key path. -/
theorem convertToObjectLoop_clause (conv : Str → Parameter → Result (Value F))
    (parameter : Parameter) (clause : List Str × Str) (rest : List Str) (obj : Obj F)
    (hseg : ∀ seg ∈ clause.1, seg ≠ [] ∧ plainText seg)
    (hval : clause.2 ≠ [] ∧ plainText clause.2) :
    convertToObjectLoop conv parameter (clauseText clause :: rest) obj
      = match assignToObject conv parameter.Name obj clause.1 clause.2 (some parameter) with
        | .ok obj => convertToObjectLoop conv parameter rest obj
        | .error err => .error err
        | .panic => .panic := by
  obtain ⟨h1, h2⟩ := splitEscaped_clauseText clause hseg hval
  rw [convertToObjectLoop]
  simp [h1, h2]

theorem builtFrom_step (conv : Str → Parameter → Result (Value F)) (parameter : Parameter)
    (obj : Obj F) (done : List (List Str × Str)) (clause : List Str × Str) (v : Value F)
    (hne : clause.1 ≠ [])
    (hother : ∀ d ∈ done, ¬ d.1 <+: clause.1 ∧ ¬ clause.1 <+: d.1)
    (hv : tryConvert conv clause.2 (findPath (some parameter) clause.1) = .ok v)
    (hinv : builtFrom conv parameter obj done) :
    freeAt obj clause.1 = true
      ∧ builtFrom conv parameter (insertAt obj clause.1 v) (done ++ [clause]) := by
  obtain ⟨h1, h2, h3⟩ := hinv
  have hfree : freeAt obj clause.1 = true := by
    apply freeAt_of_valueAt
    · by_contra hsome
      obtain ⟨d, hd, hcmp⟩ := h2 clause.1 hne hsome
      rcases hcmp with h | h
      · exact (hother d hd).2 h
      · exact (hother d hd).1 h
    · intro ks hks hpre hneq hsome
      obtain ⟨d, hd, hcmp⟩ := h2 ks hks hsome
      rcases hcmp with h | h
      · apply h3 d hd ks hks h
        rintro rfl
        exact (hother d hd).1 hpre
      · exact absurd (List.IsPrefix.trans h hpre) (hother d hd).1
  refine ⟨hfree, ?_, ?_, ?_⟩
  · intro c hc
    rcases List.mem_append.1 hc with hc | hc
    · obtain ⟨w, hw, hat⟩ := h1 c hc
      refine ⟨w, hw, ?_⟩
      have hcne : c.1 ≠ [] := by
        intro h
        exact (hother c hc).1 (h ▸ List.nil_prefix)
      rw [valueAt_insertAt_other v clause.1 obj c.1 hfree hcne (hother c hc).1 (hother c hc).2]
      exact hat
    · simp only [List.mem_singleton] at hc
      subst hc
      exact ⟨v, hv, valueAt_insertAt_self v c.1 obj hne⟩
  · intro ks hks hsome
    by_cases hcmp : ks <+: clause.1 ∨ clause.1 <+: ks
    · exact ⟨clause, by simp, hcmp⟩
    · simp only [not_or] at hcmp
      rw [valueAt_insertAt_other v clause.1 obj ks hfree hks hcmp.1 hcmp.2] at hsome
      obtain ⟨d, hd, h⟩ := h2 ks hks hsome
      exact ⟨d, List.mem_append_left _ hd, h⟩
  · intro c hc ks hks hpre hneq
    rcases List.mem_append.1 hc with hc | hc
    · by_cases hcmp : ks <+: clause.1
      · apply valueAt_insertAt_above v clause.1 obj ks hks hcmp
        rintro rfl
        exact (hother c hc).2 hpre
      · have h2' : ¬ clause.1 <+: ks := fun h =>
          (hother c hc).2 (List.IsPrefix.trans h hpre)
        rw [valueAt_insertAt_other v clause.1 obj ks hfree hks hcmp h2']
        exact h3 c hc ks hks hpre hneq
    · simp only [List.mem_singleton] at hc
      subst hc
      exact valueAt_insertAt_above v c.1 obj ks hks hpre hneq

theorem convertToObjectLoop_builds (conv : Str → Parameter → Result (Value F))
    (parameter : Parameter) :
    ∀ (todo done : List (List Str × Str)) (obj : Obj F),
      (∀ c ∈ todo, c.1 ≠ [] ∧ ∀ seg ∈ c.1, seg ≠ [] ∧ plainText seg) →
      (∀ c ∈ todo, c.2 ≠ [] ∧ plainText c.2) →
      (∀ d ∈ done, ∀ c ∈ todo, ¬ d.1 <+: c.1 ∧ ¬ c.1 <+: d.1) →
      todo.Pairwise (fun a b => ¬ a.1 <+: b.1 ∧ ¬ b.1 <+: a.1) →
      (∀ c ∈ todo, ∃ v, tryConvert conv c.2 (findPath (some parameter) c.1) = .ok v) →
      builtFrom conv parameter obj done →
      ∃ result, convertToObjectLoop conv parameter (todo.map clauseText) obj = .ok result
        ∧ builtFrom conv parameter result (done ++ todo) := by
  intro todo
  induction todo with
  | nil =>
    intro done obj _ _ _ _ _ hinv
    exact ⟨obj, rfl, by simpa using hinv⟩
  | cons clause rest ih =>
    intro done obj hseg hval hdone hpair hconv hinv
    obtain ⟨hne, hsegs⟩ := hseg clause (List.mem_cons_self _ _)
    obtain ⟨v, hv⟩ := hconv clause (List.mem_cons_self _ _)
    obtain ⟨hfree, hinv'⟩ := builtFrom_step conv parameter obj done clause v hne
      (fun d hd => hdone d hd clause (List.mem_cons_self _ _)) hv hinv
    rw [List.pairwise_cons] at hpair
    obtain ⟨result, hres, hfin⟩ := ih (done ++ [clause]) (insertAt obj clause.1 v)
      (fun c hc => hseg c (List.mem_cons_of_mem _ hc))
      (fun c hc => hval c (List.mem_cons_of_mem _ hc))
      (by
        intro d hd c hc
        rcases List.mem_append.1 hd with hd | hd
        · exact hdone d hd c (List.mem_cons_of_mem _ hc)
        · simp only [List.mem_singleton] at hd
          subst hd
          exact hpair.1 c hc)
      hpair.2
      (fun c hc => hconv c (List.mem_cons_of_mem _ hc)) hinv'
    refine ⟨result, ?_, by simpa using hfin⟩
    rw [List.map_cons, convertToObjectLoop_clause conv parameter clause _ obj hsegs
      (hval clause (List.mem_cons_self _ _)),
      assignToObject_free conv parameter.Name clause.2 clause.1 obj (some parameter) hne hfree,
      hv]
    exact hres

theorem depth_findPath (parameter r : Parameter) :
    ∀ (keys : List Str) (cur : Parameter), cur.depth ≤ parameter.depth → keys ≠ [] →
      findPath (some cur) keys = some r → r.depth < parameter.depth := by
  intro keys
  induction keys with
  | nil => intro cur _ h; exact absurd rfl h
  | cons key rest ih =>
    intro cur hcur _ hfind
    rw [findPath_cons] at hfind
    cases hnext : findParameter (some cur) key with
    | none =>
      rw [hnext] at hfind
      have hnone : ∀ ks : List Str, findPath none ks = none := by
        intro ks
        induction ks with
        | nil => rfl
        | cons k ks ihk => rw [findPath_cons]; exact ihk
      rw [hnone] at hfind
      cases hfind
    | some next =>
      rw [hnext] at hfind
      have hlt := depth_findParameter cur next key hnext
      cases rest with
      | nil =>
        simp only [findPath, List.foldl] at hfind
        cases hfind
        omega
      | cons k ks => exact ih next (by omega) (by simp) hfind

/-- Inside `Convert` on a node, the conversion of a clause's value by the schema child at its
key path is `Convert` on that child. -/
theorem tryConvert_child (ParseFloat : Str → Option F) (parameter : Parameter)
    (keys : List Str) (hne : keys ≠ []) (value : Str) :
    tryConvert (convertUpTo ParseFloat parameter.depth) value (findPath (some parameter) keys)
      = tryConvert (Convert ParseFloat) value (findPath (some parameter) keys) := by
  cases hfind : findPath (some parameter) keys with
  | none => rfl
  | some r =>
    exact convertUpTo_depth ParseFloat parameter r value
      (depth_findPath parameter r keys parameter (le_refl _) hne hfind)

theorem Convert_object (ParseFloat : Str → Option F) (value : Str)
    (parameter : Parameter) (hty : parameter.Typ = .Object) :
    Convert ParseFloat value parameter
      = convertToObject (convertUpTo ParseFloat parameter.depth) value parameter := by
  rw [Convert_eq_convertBody]; simp only [convertBody, hty]

/-- C2 (amended): object conversion builds the nested mapping of its clauses. For clauses
`path=value` joined by `;`, with non-empty segments and values free of backslash, `;`, `=` and
`.`, no key path leading to or equal to another, and each value converting under the schema
child found by looking its segments up by name from the object's node (a value with no such
child is kept as the raw string), `Convert` on an object node returns a mapping in which every
clause's key path leads to its converted value, and in which every key path that is set leads
to or continues the key path of a clause. -/
theorem convertToObject_builds (ParseFloat : Str → Option F) (parameter : Parameter)
    (clauses : List (List Str × Str)) (hty : parameter.Typ = .Object)
    (hseg : ∀ c ∈ clauses, c.1 ≠ [] ∧ ∀ seg ∈ c.1, seg ≠ [] ∧ plainText seg)
    (hval : ∀ c ∈ clauses, c.2 ≠ [] ∧ plainText c.2)
    (hpaths : clauses.Pairwise (fun a b => ¬ a.1 <+: b.1 ∧ ¬ b.1 <+: a.1))
    (hconv : ∀ c ∈ clauses, ∃ v,
      tryConvert (Convert ParseFloat) c.2 (findPath (some parameter) c.1) = .ok v) :
    (∃ obj, Convert ParseFloat (objectText clauses) parameter = .ok (.object obj)
      ∧ (∀ c ∈ clauses, ∃ v,
          tryConvert (Convert ParseFloat) c.2 (findPath (some parameter) c.1) = .ok v
            ∧ valueAt (.object obj) c.1 = some v)
      ∧ (∀ ks, ks ≠ [] → valueAt (.object obj) ks ≠ none →
          ∃ c ∈ clauses, ks <+: c.1 ∨ c.1 <+: ks))
    ∧ Convert ParseFloat "x.y=1;x.z=2".toList (.mk "p".toList .Object [])
      = .ok (.object [("x".toList,
          .object [("y".toList, .string "1".toList), ("z".toList, .string "2".toList)])]) := by
  refine ⟨?_, by rfl⟩
  have hchild : ∀ c ∈ clauses, tryConvert (convertUpTo ParseFloat parameter.depth) c.2
      (findPath (some parameter) c.1)
        = tryConvert (Convert ParseFloat) c.2 (findPath (some parameter) c.1) :=
    fun c hc => tryConvert_child ParseFloat parameter c.1 (hseg c hc).1 c.2
  obtain ⟨obj, hobj, h1, h2, _⟩ := convertToObjectLoop_builds
    (convertUpTo ParseFloat parameter.depth) parameter clauses [] [] hseg hval
    (fun d hd => absurd hd (List.not_mem_nil d)) hpaths
    (fun c hc => by rw [hchild c hc]; exact hconv c hc)
    ⟨fun c hc => absurd hc (List.not_mem_nil c),
      fun ks hks h => absurd (valueAt_nil_object ks hks) h,
      fun c hc => absurd hc (List.not_mem_nil c)⟩
  refine ⟨obj, ?_, ?_, ?_⟩
  · rw [Convert_object _ _ _ hty, convertToObject,
      splitEscaped_objectText clauses (fun c hc => (hseg c hc).2) hval, hobj]
    rfl
  · intro c hc
    obtain ⟨v, hv, hat⟩ := h1 c (by simpa using hc)
    exact ⟨v, by rw [← hchild c hc]; exact hv, hat⟩
  · intro ks hks hsome
    obtain ⟨c, hc, h⟩ := h2 ks hks hsome
    exact ⟨c, by simpa using hc, h⟩

/-- A key path that already leads to a value is rejected: `assignToObject` returns the
`already defined` error for the last key of the path. -/
theorem assignToObject_occupied (conv : Str → Parameter → Result (Value F)) (name value : Str) :
    ∀ (keys : List Str) (obj : Obj F) (cur : Option Parameter) (hne : keys ≠ []),
      valueAt (.object obj) keys ≠ none →
      assignToObject conv name obj keys value cur
        = .error (keyAlreadyDefined name (keys.getLast hne)) := by
  intro keys
  induction keys with
  | nil => intro obj cur h; exact absurd rfl h
  | cons key rest ih =>
    intro obj cur _ hsome
    rw [valueAt_object_cons] at hsome
    cases hget : mapGet obj key with
    | none => simp [hget] at hsome
    | some child =>
      rw [hget] at hsome
      cases rest with
      | nil =>
        rw [assignToObject]
        simp [hget]
      | cons next rest =>
        have hlast : (next :: rest).isEmpty = false := rfl
        cases child with
        | object fields =>
          have hih := ih fields (findParameter cur key) (by simp) hsome
          rw [assignToObject]
          simp only [hlast, Bool.false_eq_true, false_and, if_false, hget, Option.isSome_some,
            if_true, hih]
          simp
        | _ => simp [valueAt] at hsome

theorem convertToObject_builds_witness :
    ∃ obj, Convert noFloats
        (objectText [(["x".toList, "y".toList], "1".toList), (["x".toList, "z".toList], "2".toList)])
        (.mk "p".toList .Object [.mk "x".toList .Object [.mk "y".toList .Integer []]])
          = .ok (.object obj)
      ∧ (∀ c ∈ [(["x".toList, "y".toList], "1".toList), (["x".toList, "z".toList], "2".toList)],
          ∃ v, tryConvert (Convert noFloats) c.2
              (findPath (some (.mk "p".toList .Object
                [.mk "x".toList .Object [.mk "y".toList .Integer []]])) c.1) = .ok v
            ∧ valueAt (.object obj) c.1 = some v)
      ∧ (∀ ks, ks ≠ [] → valueAt (.object obj) ks ≠ none →
          ∃ c ∈ [(["x".toList, "y".toList], "1".toList), (["x".toList, "z".toList], "2".toList)],
            ks <+: c.1 ∨ c.1 <+: ks) :=
  (convertToObject_builds noFloats
    (.mk "p".toList .Object [.mk "x".toList .Object [.mk "y".toList .Integer []]])
    [(["x".toList, "y".toList], "1".toList), (["x".toList, "z".toList], "2".toList)] rfl
    (by simp [plainText])
    (by simp [plainText])
    (by decide)
    (by
      intro c hc
      simp only [List.mem_cons, List.mem_singleton, List.not_mem_nil, or_false] at hc
      rcases hc with rfl | rfl
      · exact ⟨.int 1, rfl⟩
      · exact ⟨.string "2".toList, rfl⟩)).1

/-- C2 (as stated) fails: the one clause `x=a` meets the conditions of the claim, and on an
object node whose child `x` is an integer `Convert` returns the child's conversion error. -/
theorem convertToObject_counterexample :
    objectText [(["x".toList], "a".toList)] = "x=a".toList
    ∧ Convert noFloats (objectText [(["x".toList], "a".toList)])
        (.mk "p".toList .Object [.mk "x".toList .Integer []])
      = .error "Cannot convert 'x' value 'a' to integer".toList := by
  exact ⟨by rfl, by rfl⟩

/-- C3: the text `;x=1;x=2` repeats the key path `x`, and `Convert` panics on its empty first
clause (index out of range) where the claim has it return an error; without the empty clause
the duplicate is rejected, and `x.y=1;x.z=2` is accepted. -/
theorem convertToObject_duplicate_after_empty_clause :
    Convert noFloats ";x=1;x=2".toList (.mk "p".toList .Object []) = .panic
    ∧ Convert noFloats "x=1;x=2".toList (.mk "p".toList .Object [])
      = .error "Cannot convert 'p' value because object key 'x' is already defined".toList
    ∧ Convert noFloats "x.y=1;x.z=2".toList (.mk "p".toList .Object [])
      = .ok (.object [("x".toList,
          .object [("y".toList, .string "1".toList), ("z".toList, .string "2".toList)])]) := by
  exact ⟨by rfl, by rfl, by rfl⟩

/-- C4: the clause `a=b=c` is split at both `=`, and only the piece between them is assigned:
the key `a` gets `b`, where the claim has `b=c`. -/
theorem convertToObject_second_equals :
    Convert noFloats "a=b=c".toList (.mk "p".toList .Object [])
      = .ok (.object [("a".toList, .string "b".toList)]) := by
  rfl

/-- C5: the split at `;` already consumes the backslash, so the `.` of the clause `a\.b=1`
splits the key path (the result is the key `a` holding a nested `b`, where the claim has the one
key `a.b`), and the `=` of `a\=b=1` separates key and value. -/
theorem convertToObject_escaped_dot :
    Convert noFloats "a\\.b=1".toList (.mk "p".toList .Object [])
      = .ok (.object [("a".toList, .object [("b".toList, .string "1".toList)])])
    ∧ Convert noFloats "a\\=b=1".toList (.mk "p".toList .Object [])
      = .ok (.object [("a".toList, .string "b".toList)]) := by
  exact ⟨by rfl, by rfl⟩

end ObjectTheorems

/-! ## Theorems: the authenticators, the chain and the assembler -/

section Later

variable {F V : Type}

theorem executeAuthenticatorsLoop_error :
    ∀ (pre : List Authenticator) (a : Authenticator) (post : List Authenticator)
      (ctx : AuthenticatorContext),
      (∀ p1 b p2, pre = p1 ++ b :: p2 → (b (p1.foldl chainStep ctx)).Error = []) →
      (a (pre.foldl chainStep ctx)).Error ≠ [] →
      executeAuthenticatorsLoop (pre ++ a :: post) ctx
        = .error (a (pre.foldl chainStep ctx)).Error := by
  intro pre
  induction pre with
  | nil =>
    intro a post ctx _ herr
    simp only [List.nil_append, List.foldl_nil] at herr ⊢
    rw [executeAuthenticatorsLoop]
    simp [herr]
  | cons b rest ih =>
    intro a post ctx hpre herr
    have hb : (b ctx).Error = [] := hpre [] b rest rfl
    have hrest : ∀ p1 c p2, rest = p1 ++ c :: p2 →
        (c (p1.foldl chainStep (chainStep ctx b))).Error = [] := by
      intro p1 c p2 hsplit
      have := hpre (b :: p1) c p2 (by simp [hsplit])
      simpa using this
    have := ih a post (chainStep ctx b) hrest (by simpa using herr)
    rw [List.cons_append, executeAuthenticatorsLoop]
    simp only [hb, ne_eq, not_true_eq_false, if_false, List.foldl_cons]
    exact this

/-- C11: chain short-circuit. When the steps before position i succeed and the step at
position i returns an error (a result whose `Error` is the non-empty `description`),
`executeAuthenticators` returns the error `description` unmodified and no result; that holds
for every list of authenticators after position i, so none of them is invoked; and `Call`
returns the same error for every transport plugin, so the plugin is not executed. -/
theorem executeAuthenticators_short_circuit {V : Type} (pre : List Authenticator)
    (a : Authenticator) (post : List Authenticator) (context : ExecutionContext V)
    (description : Str)
    (hpre : ∀ p1 b p2, pre = p1 ++ b :: p2 →
      (b (p1.foldl chainStep (initialContext context.BaseUri context.AuthConfig context.Debug
        context.Insecure))).Error = [])
    (herr : (a (pre.foldl chainStep (initialContext context.BaseUri context.AuthConfig
      context.Debug context.Insecure))).Error = description)
    (hne : description ≠ []) :
    executeAuthenticators (pre ++ a :: post) context.BaseUri context.AuthConfig context.Debug
        context.Insecure = .error description
    ∧ (∀ post', executeAuthenticators (pre ++ a :: post') context.BaseUri context.AuthConfig
        context.Debug context.Insecure = .error description)
    ∧ (∀ (post' : List Authenticator) (plugin : Plugin V),
        Call (pre ++ a :: post') { context with Plugin := plugin } = .error description) := by
  have key : ∀ post', executeAuthenticators (pre ++ a :: post') context.BaseUri
      context.AuthConfig context.Debug context.Insecure = .error description := by
    intro post'
    have h := executeAuthenticatorsLoop_error pre a post'
      (initialContext context.BaseUri context.AuthConfig context.Debug context.Insecure) hpre
      (by rw [herr]; exact hne)
    rw [herr] at h
    exact h
  refine ⟨key post, key, ?_⟩
  intro post' plugin
  simp only [Call, key post']

theorem executeAuthenticators_short_circuit_witness :
    executeAuthenticators [sampleDisabled, sampleFailing, sampleSetter] "https://cloud".toList
        { Typ := "login".toList, Config := [] } false false = .error "denied".toList
    ∧ (∀ plugin : Plugin Unit,
        Call [sampleDisabled, sampleFailing, sampleSetter]
          { Organization := "org".toList, Tenant := "tenant".toList,
            BaseUri := "https://cloud".toList,
            AuthConfig := { Typ := "login".toList, Config := [] }, Input := none,
            Parameters := { Path := [], Query := [], Header := [], Body := [], Form := [] },
            Insecure := false, Debug := false, Plugin := plugin } = .error "denied".toList) :=
  have h := executeAuthenticators_short_circuit (V := Unit) [sampleDisabled] sampleFailing
    [sampleSetter]
    { Organization := "org".toList, Tenant := "tenant".toList,
      BaseUri := "https://cloud".toList,
      AuthConfig := { Typ := "login".toList, Config := [] }, Input := none,
      Parameters := { Path := [], Query := [], Header := [], Body := [], Form := [] },
      Insecure := false, Debug := false, Plugin := fun _ => .ok () } "denied".toList
    (by
      intro p1 b p2 hsplit
      rcases p1 with _ | ⟨q, p1⟩
      · simp at hsplit; obtain ⟨rfl, -⟩ := hsplit; rfl
      · simp at hsplit)
    rfl (by decide)
  ⟨h.1, fun plugin => h.2.2 [sampleSetter] plugin⟩

/-- C12: PAT injection. When the configuration holds the non-empty string `t` under `pat`,
`PatAuthenticator.Auth` returns `Success` with header `Authorization` equal to `Bearer `
followed by `t`, every other header as in the incoming request, and the incoming
configuration. -/
theorem PatAuthenticator_injects (formatOther : ConfigValue → Str) (ctx : AuthenticatorContext)
    (t : Str) (hpat : mapGet ctx.Config "pat".toList = some (.string t)) (ht : t ≠ []) :
    PatAuthenticator.Auth formatOther ctx
      = AuthenticatorSuccess
          (mapSet ctx.Request.Header "Authorization".toList ("Bearer ".toList ++ t)) ctx.Config
    ∧ (PatAuthenticator.Auth formatOther ctx).Error = []
    ∧ mapGet (PatAuthenticator.Auth formatOther ctx).RequestHeader "Authorization".toList
        = some ("Bearer ".toList ++ t)
    ∧ (∀ k, k ≠ "Authorization".toList →
        mapGet (PatAuthenticator.Auth formatOther ctx).RequestHeader k
          = mapGet ctx.Request.Header k)
    ∧ (PatAuthenticator.Auth formatOther ctx).Config = ctx.Config := by
  have h : PatAuthenticator.Auth formatOther ctx
      = AuthenticatorSuccess
          (mapSet ctx.Request.Header "Authorization".toList ("Bearer ".toList ++ t))
          ctx.Config := by
    simp only [PatAuthenticator.Auth, PatAuthenticator.enabled, PatAuthenticator.getPat,
      parseRequiredString, hpat, Option.isSome_some, not_true_eq_false, if_false, ht]
  rw [h]
  refine ⟨rfl, rfl, ?_, ?_, rfl⟩
  · simp [AuthenticatorSuccess, mapGet_mapSet]
  · intro k hk
    simp only [AuthenticatorSuccess, mapGet_mapSet]
    rw [if_neg (fun h => hk h.symm)]

theorem PatAuthenticator_injects_witness :
    PatAuthenticator.Auth noFormat
        { Typ := "login".toList, Config := [("pat".toList, .string "abc".toList)],
          Debug := false, Insecure := false,
          Request :=
            { URL := "https://cloud".toList
              Header := [("Accept".toList, "json".toList)] } }
      = AuthenticatorSuccess
          [("Accept".toList, "json".toList), ("Authorization".toList, "Bearer abc".toList)]
          [("pat".toList, .string "abc".toList)] :=
  (PatAuthenticator_injects noFormat
    { Typ := "login".toList, Config := [("pat".toList, .string "abc".toList)],
      Debug := false, Insecure := false,
      Request :=
        { URL := "https://cloud".toList
          Header := [("Accept".toList, "json".toList)] } }
    "abc".toList rfl (by decide)).1

theorem PatAuthenticator_absent (formatOther : ConfigValue → Str) (ctx : AuthenticatorContext)
    (hpat : mapGet ctx.Config "pat".toList = none) :
    PatAuthenticator.Auth formatOther ctx
      = AuthenticatorSuccess ctx.Request.Header ctx.Config := by
  simp only [PatAuthenticator.Auth, PatAuthenticator.enabled, hpat, Option.isSome_none,
    Bool.false_eq_true, not_false_eq_true, if_true]

theorem BearerAuthenticator_absent (formatOther : ConfigValue → Str)
    (urlParse : Str → Except Str URL) (getToken : IdentityClient) (ctx : AuthenticatorContext)
    (h : mapGet ctx.Config "clientId".toList = none
      ∨ mapGet ctx.Config "clientSecret".toList = none) :
    BearerAuthenticator.Auth formatOther urlParse getToken ctx
      = AuthenticatorSuccess ctx.Request.Header ctx.Config := by
  rcases h with h | h <;>
    simp only [BearerAuthenticator.Auth, BearerAuthenticator.enabled, h, Option.isSome_none,
      Bool.false_and, Bool.and_false, Bool.false_eq_true, not_false_eq_true, if_true]

/-- C14: bearer disabled is a no-op. When the configuration lacks `clientId` or lacks
`clientSecret`, `BearerAuthenticator.Auth` returns `Success` with exactly the incoming headers
and the incoming configuration, whatever the identity client (and `url.Parse`) would answer. -/
theorem BearerAuthenticator_disabled (formatOther : ConfigValue → Str)
    (urlParse : Str → Except Str URL) (getToken : IdentityClient) (ctx : AuthenticatorContext)
    (h : mapGet ctx.Config "clientId".toList = none
      ∨ mapGet ctx.Config "clientSecret".toList = none) :
    BearerAuthenticator.Auth formatOther urlParse getToken ctx
      = AuthenticatorSuccess ctx.Request.Header ctx.Config
    ∧ (BearerAuthenticator.Auth formatOther urlParse getToken ctx).RequestHeader
        = ctx.Request.Header
    ∧ (BearerAuthenticator.Auth formatOther urlParse getToken ctx).Config = ctx.Config
    ∧ (∀ (otherParse : Str → Except Str URL) (otherClient : IdentityClient),
        BearerAuthenticator.Auth formatOther otherParse otherClient ctx
          = BearerAuthenticator.Auth formatOther urlParse getToken ctx) := by
  have key := fun up gt => BearerAuthenticator_absent formatOther up gt ctx h
  refine ⟨key _ _, by rw [key]; rfl, by rw [key]; rfl, fun up gt => by rw [key, key]⟩

theorem BearerAuthenticator_disabled_witness :
    BearerAuthenticator.Auth noFormat noUrl fixedToken
        { Typ := "login".toList, Config := [("clientId".toList, .string "me".toList)],
          Debug := false, Insecure := false,
          Request :=
            { URL := "https://cloud".toList
              Header := [("Accept".toList, "json".toList)] } }
      = AuthenticatorSuccess [("Accept".toList, "json".toList)]
          [("clientId".toList, .string "me".toList)] :=
  (BearerAuthenticator_disabled noFormat noUrl fixedToken
    { Typ := "login".toList, Config := [("clientId".toList, .string "me".toList)],
      Debug := false, Insecure := false,
      Request :=
        { URL := "https://cloud".toList
          Header := [("Accept".toList, "json".toList)] } } (Or.inr rfl)).1

theorem executeAuthenticatorsLoop_noop :
    ∀ (authenticators : List Authenticator) (ctx : AuthenticatorContext),
      ctx.Request.Header = [] →
      (∀ a ∈ authenticators, a ctx = AuthenticatorSuccess ctx.Request.Header ctx.Config) →
      executeAuthenticatorsLoop authenticators ctx = .ok (AuthenticatorSuccess [] ctx.Config) := by
  intro authenticators
  induction authenticators with
  | nil =>
    intro ctx hh _
    rw [executeAuthenticatorsLoop, hh]
  | cons a rest ih =>
    intro ctx hh hall
    have ha := hall a (List.mem_cons_self _ _)
    have hsame : ({ ctx with
        Config := (a ctx).Config
        Request := { ctx.Request with
          Header := mergeHeader ctx.Request.Header (a ctx).RequestHeader } } :
          AuthenticatorContext) = ctx := by
      rw [ha, hh]
      cases ctx with
      | mk typ config debug insecure request =>
        cases request with
        | mk url header =>
          simp only at hh
          subst hh
          rfl
    rw [executeAuthenticatorsLoop]
    simp only [ha, AuthenticatorSuccess, ne_eq, not_true_eq_false, if_false]
    simp only [AuthenticatorSuccess] at hsame ha
    rw [ha] at hsame
    simp only at hsame
    rw [hsame]
    have := ih ctx hh (fun b hb => hall b (List.mem_cons_of_mem _ hb))
    simpa [AuthenticatorSuccess] using this

/-- C15: empty or all-no-op chain. For the empty list, and for a list of PAT and bearer
authenticators when the configuration has none of `pat`, `clientId`, `clientSecret`,
`executeAuthenticators` returns `Success` with an empty header set and the caller's
configuration. -/
theorem executeAuthenticators_noop (authenticators : List Authenticator) (baseUri : Str)
    (authConfig : AuthConfig) (debug insecure : Bool)
    (h : authenticators = []
      ∨ ((∀ a ∈ authenticators, (∃ formatOther, a = PatAuthenticator.Auth formatOther)
            ∨ ∃ formatOther urlParse getToken,
                a = BearerAuthenticator.Auth formatOther urlParse getToken)
          ∧ mapGet authConfig.Config "pat".toList = none
          ∧ mapGet authConfig.Config "clientId".toList = none
          ∧ mapGet authConfig.Config "clientSecret".toList = none)) :
    executeAuthenticators authenticators baseUri authConfig debug insecure
      = .ok (AuthenticatorSuccess [] authConfig.Config) := by
  rcases h with rfl | ⟨hall, hpat, hid, _⟩
  · rfl
  · apply executeAuthenticatorsLoop_noop authenticators
      { Typ := authConfig.Typ, Config := authConfig.Config, Debug := debug,
        Insecure := insecure, Request := { URL := baseUri, Header := [] } } rfl
    intro a ha
    rcases hall a ha with ⟨fo, rfl⟩ | ⟨fo, up, gt, rfl⟩
    · exact PatAuthenticator_absent fo _ hpat
    · exact BearerAuthenticator_absent fo up gt _ (Or.inl hid)

theorem executeAuthenticators_noop_witness :
    executeAuthenticators
        [PatAuthenticator.Auth noFormat, BearerAuthenticator.Auth noFormat noUrl fixedToken]
        "https://cloud".toList
        { Typ := "login".toList, Config := [("organization".toList, .string "acme".toList)] }
        false false
      = .ok (AuthenticatorSuccess [] [("organization".toList, .string "acme".toList)]) :=
  executeAuthenticators_noop
    [PatAuthenticator.Auth noFormat, BearerAuthenticator.Auth noFormat noUrl fixedToken]
    "https://cloud".toList
    { Typ := "login".toList, Config := [("organization".toList, .string "acme".toList)] }
    false false
    (Or.inr ⟨by
      intro a ha
      simp only [List.mem_cons, List.mem_singleton, List.not_mem_nil, or_false] at ha
      rcases ha with rfl | rfl
      · exact Or.inl ⟨noFormat, rfl⟩
      · exact Or.inr ⟨noFormat, noUrl, fixedToken, rfl⟩, rfl, rfl, rfl⟩)

theorem convertToPluginParametersLoop_eq :
    ∀ (parameters : List (ExecutionParameter V)) (result : List (PluginExecutionParameter V)),
      convertToPluginParametersLoop parameters result
        = result ++ parameters.map (fun p => { Name := p.Name, Value := p.Value }) := by
  intro parameters
  induction parameters with
  | nil => intro result; simp [convertToPluginParametersLoop]
  | cons p rest ih =>
    intro result
    rw [convertToPluginParametersLoop, ih]
    simp

/-- C16: the assembler neither reorders nor drops parameters. `pluginParameters` returns the
(name, value) pairs of the path, query, header, body and form groups, in that group order and
in the order inside each group; its length is the sum of the lengths of the groups. -/
theorem pluginParameters_concat (context : ExecutionContext V) :
    pluginParameters context
      = (context.Parameters.Path ++ context.Parameters.Query ++ context.Parameters.Header
          ++ context.Parameters.Body ++ context.Parameters.Form).map
            (fun p => { Name := p.Name, Value := p.Value })
    ∧ (pluginParameters context).length
      = context.Parameters.Path.length + context.Parameters.Query.length
        + context.Parameters.Header.length + context.Parameters.Body.length
        + context.Parameters.Form.length := by
  have h : pluginParameters context
      = (context.Parameters.Path ++ context.Parameters.Query ++ context.Parameters.Header
          ++ context.Parameters.Body ++ context.Parameters.Form).map
            (fun p => { Name := p.Name, Value := p.Value }) := by
    simp only [pluginParameters, convertToPluginParameters, convertToPluginParametersLoop_eq,
      List.nil_append]
  refine ⟨h, ?_⟩
  rw [h]
  simp only [List.length_map, List.length_append]

/-- C17: the texts `a=1;;b=2` and `;` have an empty clause, on which `Convert` panics (index
out of range) where the claim has it return a value. The bare key path `flag` is assigned the
empty value. -/
theorem convertToObject_empty_clause :
    Convert noFloats "a=1;;b=2".toList (.mk "p".toList .Object []) = .panic
    ∧ Convert noFloats ";".toList (.mk "p".toList .Object []) = .panic
    ∧ Convert noFloats "flag".toList (.mk "p".toList .Object [])
      = .ok (.object [("flag".toList, .string [])]) := by
  exact ⟨by rfl, by rfl, by rfl⟩

/-- C19: in `x=1;x.y=2` the second clause goes through the key `x`, which holds the string
`1`; `Convert` panics on the type assertion where the claim has it return an error. -/
theorem convertToObject_below_scalar :
    Convert noFloats "x=1;x.y=2".toList (.mk "p".toList .Object []) = .panic := by
  rfl

theorem splitEscapedLoop_result (separator : Char) :
    ∀ (str : Str) (result : List Str) (item : Str) (escaping : Bool),
      splitEscapedLoop separator str result item escaping
        = result ++ splitEscapedLoop separator str [] item escaping := by
  intro str
  induction str with
  | nil =>
    intro result item escaping
    simp only [splitEscapedLoop]
    split <;> simp
  | cons c rest ih =>
    intro result item escaping
    rw [splitEscapedLoop, splitEscapedLoop]
    split
    · exact ih _ _ _
    · split
      · exact ih _ _ _
      · split
        · rw [ih (result ++ [item]), ih ([] ++ [item])]
          simp
        · exact ih _ _ _

/-- A clause that starts with `=` has the empty key as its first piece. -/
theorem splitEscaped_leading_equals (rest : Str) :
    ∃ tail, splitEscaped ('=' :: rest) '=' = [] :: tail := by
  refine ⟨splitEscapedLoop '=' rest [] [] false, ?_⟩
  have h : splitEscaped ('=' :: rest) '=' = splitEscapedLoop '=' rest ([] ++ [[]]) [] false := by
    simp [splitEscaped, splitEscapedLoop]
  rw [h, splitEscapedLoop_result]
  rfl

/-- One round of the loop of `convertToObject` on a clause that starts with `=` leaves the
mapping as it is. -/
theorem convertToObjectLoop_leading_equals (conv : Str → Parameter → Result (Value F))
    (parameter : Parameter) (clause : Str) (rest : List Str) (obj : Obj F)
    (h : clause.head? = some '=') :
    convertToObjectLoop conv parameter (clause :: rest) obj
      = convertToObjectLoop conv parameter rest obj := by
  cases clause with
  | nil => simp at h
  | cons c r =>
    simp only [List.head?_cons, Option.some.injEq] at h
    subst h
    obtain ⟨tail, htail⟩ := splitEscaped_leading_equals r
    have hkeys : splitEscaped ([] : Str) '.' = [] := rfl
    rw [convertToObjectLoop, htail]
    cases tail with
    | nil => simp [hkeys, assignToObject]
    | cons v more =>
      have hlen : ¬ (([] : Str) :: v :: more).length < 2 := by simp
      simp only [hlen, if_false, List.getElem?_cons_zero, List.getElem?_cons_succ, hkeys,
        assignToObject]

theorem convertToObjectLoop_filter (conv : Str → Parameter → Result (Value F))
    (parameter : Parameter) :
    ∀ (assigns : List Str) (obj : Obj F),
      convertToObjectLoop conv parameter assigns obj
        = convertToObjectLoop conv parameter
            (assigns.filter (fun clause => clause.head? ≠ some '=')) obj := by
  intro assigns
  induction assigns with
  | nil => intro obj; rfl
  | cons clause rest ih =>
    intro obj
    by_cases h : clause.head? = some '='
    · rw [convertToObjectLoop_leading_equals conv parameter clause rest obj h, ih]
      simp [List.filter, h]
    · have hf : (clause :: rest).filter (fun clause => clause.head? ≠ some '=')
          = clause :: rest.filter (fun clause => clause.head? ≠ some '=') := by
        simp [List.filter, h]
      rw [hf, convertToObjectLoop, convertToObjectLoop]
      simp only [ih]

/-- C20 (amended): a clause with an empty key path is skipped. On an object node `Convert`
returns what the loop of `convertToObject` gives on the clauses that do not start with `=`: a
clause that starts with `=` leaves the mapping as it is and raises no error. So `=1` converts
to the empty mapping and `a=1;=2` converts like `a=1`. -/
theorem convertToObject_skips_empty_key (ParseFloat : Str → Option F) (value : Str)
    (parameter : Parameter) (hty : parameter.Typ = .Object) :
    Convert ParseFloat value parameter
      = (convertToObjectLoop (convertUpTo ParseFloat parameter.depth) parameter
          ((splitEscaped value ';').filter (fun clause => clause.head? ≠ some '=')) []).map
            Value.object
    ∧ (∀ (clause : Str) (rest : List Str) (obj : Obj F), clause.head? = some '=' →
        convertToObjectLoop (convertUpTo ParseFloat parameter.depth) parameter (clause :: rest) obj
          = convertToObjectLoop (convertUpTo ParseFloat parameter.depth) parameter rest obj)
    ∧ Convert ParseFloat "=1".toList parameter = .ok (.object [])
    ∧ Convert ParseFloat "a=1;=2".toList parameter = Convert ParseFloat "a=1".toList parameter := by
  have key : ∀ v, Convert ParseFloat v parameter
      = (convertToObjectLoop (convertUpTo ParseFloat parameter.depth) parameter
          ((splitEscaped v ';').filter (fun clause => clause.head? ≠ some '=')) []).map
            Value.object := by
    intro v
    rw [Convert_object _ _ _ hty, convertToObject, convertToObjectLoop_filter]
  refine ⟨key value, fun clause rest obj h =>
    convertToObjectLoop_leading_equals _ parameter clause rest obj h, ?_, ?_⟩
  · rw [key]
    rfl
  · rw [key, key]
    rfl

theorem convertToObject_skips_empty_key_witness :
    (Parameter.mk "p".toList .Object []).Typ = .Object
    ∧ Convert noFloats "a=1;=2".toList (.mk "p".toList .Object [])
      = Convert noFloats "a=1".toList (.mk "p".toList .Object []) :=
  ⟨rfl, (convertToObject_skips_empty_key noFloats [] (.mk "p".toList .Object []) rfl).2.2.2⟩

/-- C20 (as stated) fails: `=1;x=1;x=2` has a clause that starts with `=`, and `Convert`
returns the duplicate-key error of the other clauses. -/
theorem convertToObject_empty_key_counterexample :
    Convert noFloats "=1;x=1;x=2".toList (.mk "p".toList .Object [])
      = .error "Cannot convert 'p' value because object key 'x' is already defined".toList := by
  rfl

theorem cannotConvertValue_names (name value : Str) (target : String) :
    name <:+: cannotConvertValue name value target
      ∧ value <:+: cannotConvertValue name value target := by
  constructor
  · exact ⟨"Cannot convert '".toList, "' value '".toList ++ value ++ "' to ".toList
      ++ target.toList, by simp [cannotConvertValue]⟩
  · exact ⟨"Cannot convert '".toList ++ name ++ "' value '".toList, "' to ".toList
      ++ target.toList, by simp [cannotConvertValue]⟩

theorem cannotConvertValues_names (name value : Str) (target : String) :
    name <:+: cannotConvertValues name value target
      ∧ value <:+: cannotConvertValues name value target := by
  constructor
  · exact ⟨"Cannot convert '".toList, "' values '".toList ++ value ++ "' to ".toList
      ++ target.toList, by simp [cannotConvertValues]⟩
  · exact ⟨"Cannot convert '".toList ++ name ++ "' values '".toList, "' to ".toList
      ++ target.toList, by simp [cannotConvertValues]⟩

theorem convertItems_error_message {α : Type} (convertItem : Str → Result α) (failure : Str) :
    ∀ (items : List Str) (result : List α) (msg : Str),
      convertItems convertItem failure items result = .error msg → msg = failure := by
  intro items
  induction items with
  | nil => intro result msg h; simp [convertItems] at h
  | cons x xs ih =>
    intro result msg h
    rw [convertItems] at h
    cases hx : convertItem x with
    | ok a => rw [hx] at h; exact ih _ msg h
    | error e => rw [hx] at h; simp only [Result.error.injEq] at h; exact h.symm
    | panic => rw [hx] at h; cases h

theorem Result_map_error {α β : Type} (f : α → β) (r : Result α) (msg : Str)
    (h : r.map f = .error msg) : r = .error msg := by
  cases r with
  | ok a => simp [Result.map] at h
  | error e => simpa [Result.map] using h
  | panic => simp [Result.map] at h

/-- An error of `assignToObject` is the `already defined` message for the last key of the key
path, or the error of converting the value by the schema child at the key path. -/
theorem assignToObject_error (conv : Str → Parameter → Result (Value F)) (name value : Str)
    (msg : Str) :
    ∀ (keys : List Str) (obj : Obj F) (cur : Option Parameter),
      assignToObject conv name obj keys value cur = .error msg →
      ∃ hne : keys ≠ [], msg = keyAlreadyDefined name (keys.getLast hne)
        ∨ tryConvert conv value (findPath cur keys) = .error msg := by
  intro keys
  induction keys with
  | nil => intro obj cur h; simp [assignToObject] at h
  | cons key rest ih =>
    intro obj cur h
    refine ⟨List.cons_ne_nil key rest, ?_⟩
    have hstep : ∀ child, assignToObject conv name child rest value (findParameter cur key)
        = .error msg →
        msg = keyAlreadyDefined name ((key :: rest).getLast (List.cons_ne_nil key rest))
          ∨ tryConvert conv value (findPath cur (key :: rest)) = .error msg := by
      intro child hrec
      obtain ⟨hne, hcase⟩ := ih child (findParameter cur key) hrec
      rcases hcase with hdup | hconv
      · exact Or.inl (by rw [List.getLast_cons hne]; exact hdup)
      · exact Or.inr (by rw [findPath_cons]; exact hconv)
    cases rest with
    | nil =>
      rw [assignToObject] at h
      by_cases hs : (mapGet obj key).isSome = true
      · simp only [hs, List.isEmpty_nil, and_self, if_true, Result.error.injEq] at h
        exact Or.inl (by rw [← h]; rfl)
      · have hs' : (mapGet obj key).isSome = false := by simpa using hs
        simp only [hs', List.isEmpty_nil, Bool.false_eq_true, and_false, if_false, if_true] at h
        right
        simp only [findPath, List.foldl]
        generalize tryConvert conv value (findParameter cur key) = t at h ⊢
        cases t with
        | ok v => cases h
        | error e => simpa using h
        | panic => cases h
    | cons next rest =>
      have hlast : (next :: rest).isEmpty = false := rfl
      rw [assignToObject] at h
      simp only [hlast, Bool.false_eq_true, false_and, if_false] at h
      cases hget : mapGet obj key with
      | none =>
        simp only [hget, Option.isSome_none, Bool.false_eq_true, if_false, mapGet_mapSet,
          if_true] at h
        cases hrec : assignToObject conv name [] (next :: rest) value (findParameter cur key) with
        | ok v => rw [hrec] at h; cases h
        | error e =>
          rw [hrec] at h
          simp only [Result.error.injEq] at h
          subst h
          exact hstep [] hrec
        | panic => rw [hrec] at h; cases h
      | some child =>
        simp only [hget, Option.isSome_some, if_true] at h
        cases child with
        | object fields =>
          simp only at h
          cases hrec : assignToObject conv name fields (next :: rest) value
              (findParameter cur key) with
          | ok v => rw [hrec] at h; cases h
          | error e =>
            rw [hrec] at h
            simp only [Result.error.injEq] at h
            subst h
            exact hstep fields hrec
          | panic => rw [hrec] at h; cases h
        | _ => cases h

/-- One round of the loop of `convertToObject`, in terms of the key path and the value read
off the clause. -/
theorem convertToObjectLoop_cons_parts (conv : Str → Parameter → Result (Value F))
    (parameter : Parameter) (assign : Str) (rest : List Str) (obj : Obj F) :
    convertToObjectLoop conv parameter (assign :: rest) obj
      = match clauseParts assign with
        | some (keys, value) =>
          match assignToObject conv parameter.Name obj keys value (some parameter) with
          | .ok obj => convertToObjectLoop conv parameter rest obj
          | .error err => .error err
          | .panic => .panic
        | none => .panic := by
  rw [convertToObjectLoop]
  simp only [clauseParts]
  split <;> simp_all

/-- An error of the loop of `convertToObject` comes from one of the clauses: it is the
`already defined` message for the last key of the clause's key path, or the error of converting
the clause's value by the schema child at that key path. -/
theorem convertToObjectLoop_error (conv : Str → Parameter → Result (Value F))
    (parameter : Parameter) (msg : Str) :
    ∀ (assigns : List Str) (obj : Obj F),
      convertToObjectLoop conv parameter assigns obj = .error msg →
      ∃ assign ∈ assigns, ∃ (keys : List Str) (clauseValue : Str) (hne : keys ≠ []),
        clauseParts assign = some (keys, clauseValue)
        ∧ (msg = keyAlreadyDefined parameter.Name (keys.getLast hne)
          ∨ tryConvert conv clauseValue (findPath (some parameter) keys) = .error msg) := by
  intro assigns
  induction assigns with
  | nil => intro obj h; simp [convertToObjectLoop] at h
  | cons assign rest ih =>
    intro obj h
    rw [convertToObjectLoop_cons_parts] at h
    cases hparts : clauseParts assign with
    | none => rw [hparts] at h; cases h
    | some parts =>
      obtain ⟨keys, clauseValue⟩ := parts
      rw [hparts] at h
      simp only at h
      cases ha : assignToObject conv parameter.Name obj keys clauseValue (some parameter) with
      | ok o =>
        rw [ha] at h
        obtain ⟨a, hmem, rest'⟩ := ih o h
        exact ⟨a, List.mem_cons_of_mem _ hmem, rest'⟩
      | error e =>
        rw [ha] at h
        simp only [Result.error.injEq] at h
        subst h
        obtain ⟨hne, hcase⟩ := assignToObject_error conv parameter.Name clauseValue e keys obj _ ha
        exact ⟨assign, List.mem_cons_self _ _, keys, clauseValue, hne, hparts, hcase⟩
      | panic => rw [ha] at h; cases h

/-- An error on a node that is not an object node contains the node's name and the raw text. -/
theorem Convert_error_plain (ParseFloat : Str → Option F) (value : Str) (parameter : Parameter)
    (msg : Str) (herr : Convert ParseFloat value parameter = .error msg)
    (hty : parameter.Typ ≠ .Object) : parameter.Name <:+: msg ∧ value <:+: msg := by
  rw [Convert_eq_convertBody] at herr
  cases ht : parameter.Typ with
  | Object => exact absurd ht hty
  | String => simp [convertBody, ht] at herr
  | Binary => simp [convertBody, ht, convertToBinary, Result.map] at herr
  | StringArray => simp [convertBody, ht, convertToStringArray, Result.map] at herr
  | Integer =>
    simp only [convertBody, ht] at herr
    have h := Result_map_error _ _ msg herr
    unfold convertToInteger at h
    split at h
    · simp only [Result.error.injEq] at h
      rw [← h]
      exact cannotConvertValue_names _ _ _
    · cases h
  | Number =>
    simp only [convertBody, ht] at herr
    have h := Result_map_error _ _ msg herr
    unfold convertToNumber at h
    split at h
    · simp only [Result.error.injEq] at h
      rw [← h]
      exact cannotConvertValue_names _ _ _
    · cases h
  | Boolean =>
    simp only [convertBody, ht] at herr
    have h := Result_map_error _ _ msg herr
    rw [convertToBoolean_shape] at h
    split at h
    · simp only [Result.error.injEq] at h
      rw [← h]
      exact cannotConvertValue_names _ _ _
    · cases h
  | IntegerArray =>
    simp only [convertBody, ht] at herr
    have h := convertItems_error_message _ _ _ _ msg (Result_map_error _ _ msg herr)
    rw [h]
    exact cannotConvertValues_names _ _ _
  | NumberArray =>
    simp only [convertBody, ht] at herr
    have h := convertItems_error_message _ _ _ _ msg (Result_map_error _ _ msg herr)
    rw [h]
    exact cannotConvertValues_names _ _ _
  | BooleanArray =>
    simp only [convertBody, ht] at herr
    have h := convertItems_error_message _ _ _ _ msg (Result_map_error _ _ msg herr)
    rw [h]
    exact cannotConvertValues_names _ _ _
  | ObjectArray =>
    simp only [convertBody, ht] at herr
    have h := convertItems_error_message _ _ _ _ msg (Result_map_error _ _ msg herr)
    rw [h]
    exact cannotConvertValues_names _ _ _

/-- An error on an object node is the duplicate-key error of one of the text's clauses, or the
error `Convert` returns for the value of one of the text's clauses on the schema child at the
clause's key path. -/
theorem Convert_error_object (ParseFloat : Str → Option F) (value : Str) (parameter : Parameter)
    (msg : Str) (herr : Convert ParseFloat value parameter = .error msg)
    (hty : parameter.Typ = .Object) :
    isDuplicateKeyError parameter value msg
      ∨ ∃ child clauseValue, isClauseOf parameter value child clauseValue
          ∧ Convert ParseFloat clauseValue child = .error msg := by
  rw [Convert_eq_convertBody] at herr
  simp only [convertBody, hty, convertToObject] at herr
  obtain ⟨assign, hmem, keys, clauseValue, hne, hparts, hcase⟩ :=
    convertToObjectLoop_error _ parameter msg _ _ (Result_map_error _ _ msg herr)
  rcases hcase with hdup | hconv
  · exact Or.inl ⟨assign, hmem, keys, clauseValue, hne, hparts, by
      rw [hdup]; simp [keyAlreadyDefined]⟩
  · right
    rw [tryConvert_child ParseFloat parameter keys hne clauseValue] at hconv
    cases hfind : findPath (some parameter) keys with
    | none => rw [hfind] at hconv; simp [tryConvert] at hconv
    | some child =>
      rw [hfind] at hconv
      exact ⟨child, clauseValue, ⟨assign, hmem, keys, hparts, hne, hfind⟩, hconv⟩

theorem depth_isClauseOf (parameter child : Parameter) (value clauseValue : Str)
    (h : isClauseOf parameter value child clauseValue) : child.depth < parameter.depth := by
  obtain ⟨_, _, keys, _, hne, hfind⟩ := h
  exact depth_findPath parameter child keys parameter (le_refl _) hne hfind

/-- Every error arises at a conversion that the given one leads to, and says where: on a node
that is not an object node it contains that node's name and text, on an object node it is
that node's duplicate-key error. -/
theorem Convert_error_site (ParseFloat : Str → Option F) :
    ∀ (n : Nat) (parameter : Parameter) (value msg : Str), parameter.depth ≤ n →
      Convert ParseFloat value parameter = .error msg →
      ∃ node text, LeadsTo parameter value node text
        ∧ Convert ParseFloat text node = .error msg
        ∧ ((node.Typ ≠ .Object ∧ node.Name <:+: msg ∧ text <:+: msg)
          ∨ (node.Typ = .Object ∧ isDuplicateKeyError node text msg)) := by
  intro n
  induction n with
  | zero =>
    intro parameter value msg hd _
    cases parameter with
    | mk name typ ps => simp [Parameter.depth] at hd
  | succ n ih =>
    intro parameter value msg hd herr
    by_cases hty : parameter.Typ = .Object
    · rcases Convert_error_object ParseFloat value parameter msg herr hty with
        hdup | ⟨child, clauseValue, hclause, hchild⟩
      · exact ⟨parameter, value, LeadsTo.here _ _, herr, Or.inr ⟨hty, hdup⟩⟩
      · have hlt := depth_isClauseOf parameter child value clauseValue hclause
        obtain ⟨node, text, hleads, hnode, hnames⟩ :=
          ih child clauseValue msg (by omega) hchild
        exact ⟨node, text, LeadsTo.clause _ _ _ _ _ _ hty hclause hleads, hnode, hnames⟩
    · exact ⟨parameter, value, LeadsTo.here _ _, herr,
        Or.inl ⟨hty, Convert_error_plain ParseFloat value parameter msg herr hty⟩⟩

/-- C18 (amended): what a conversion error names. When `Convert` returns an error on a node
that is not an object node, the message contains the node's parameter name and the raw text.
On an object node the error is the duplicate-key message of the node for the last key of the
key path of one of the text's clauses, or it is exactly the error `Convert` returns for the
value of one of the text's clauses on the schema child at that clause's key path. So every
error arises at a conversion the given one leads to through such clauses: on a node that is not
an object node the message contains that node's name and the text that node was given, and on
an object node it is that node's duplicate-key message. -/
theorem Convert_error_names (ParseFloat : Str → Option F) (value : Str) (parameter : Parameter)
    (msg : Str) (herr : Convert ParseFloat value parameter = .error msg) :
    (parameter.Typ ≠ .Object → parameter.Name <:+: msg ∧ value <:+: msg)
    ∧ (parameter.Typ = .Object →
        isDuplicateKeyError parameter value msg
        ∨ ∃ child clauseValue, isClauseOf parameter value child clauseValue
            ∧ Convert ParseFloat clauseValue child = .error msg)
    ∧ (∃ node text, LeadsTo parameter value node text
        ∧ Convert ParseFloat text node = .error msg
        ∧ ((node.Typ ≠ .Object ∧ node.Name <:+: msg ∧ text <:+: msg)
          ∨ (node.Typ = .Object ∧ isDuplicateKeyError node text msg))) :=
  ⟨Convert_error_plain ParseFloat value parameter msg herr,
    Convert_error_object ParseFloat value parameter msg herr,
    Convert_error_site ParseFloat parameter.depth parameter value msg (le_refl _) herr⟩

theorem Convert_error_names_witness :
    Convert noFloats "x=y\\\\=a".toList
        (.mk "settings".toList .Object [.mk "x".toList .Object [.mk "y".toList .Integer []]])
      = .error "Cannot convert 'y' value 'a' to integer".toList
    ∧ (isDuplicateKeyError
          (.mk "settings".toList .Object [.mk "x".toList .Object [.mk "y".toList .Integer []]])
          "x=y\\\\=a".toList "Cannot convert 'y' value 'a' to integer".toList
        ∨ ∃ child clauseValue,
            isClauseOf
              (.mk "settings".toList .Object
                [.mk "x".toList .Object [.mk "y".toList .Integer []]])
              "x=y\\\\=a".toList child clauseValue
            ∧ Convert noFloats clauseValue child
              = .error "Cannot convert 'y' value 'a' to integer".toList)
    ∧ (∃ node text,
        LeadsTo
          (.mk "settings".toList .Object [.mk "x".toList .Object [.mk "y".toList .Integer []]])
          "x=y\\\\=a".toList node text
        ∧ Convert noFloats text node = .error "Cannot convert 'y' value 'a' to integer".toList
        ∧ ((node.Typ ≠ .Object
            ∧ node.Name <:+: "Cannot convert 'y' value 'a' to integer".toList
            ∧ text <:+: "Cannot convert 'y' value 'a' to integer".toList)
          ∨ (node.Typ = .Object
            ∧ isDuplicateKeyError node text
                "Cannot convert 'y' value 'a' to integer".toList))) :=
  have h : Convert noFloats "x=y\\\\=a".toList
      (.mk "settings".toList .Object [.mk "x".toList .Object [.mk "y".toList .Integer []]])
        = .error "Cannot convert 'y' value 'a' to integer".toList := by rfl
  have all := Convert_error_names noFloats "x=y\\\\=a".toList
    (.mk "settings".toList .Object [.mk "x".toList .Object [.mk "y".toList .Integer []]]) _ h
  ⟨h, all.2.1 rfl, all.2.2⟩

/-- C18 (as stated) fails: the duplicate-key error of `x=1;x=2` does not contain the raw
text, and the error of `x=a` on an object node with an integer child `x` contains neither the
node's name nor the raw text. -/
theorem Convert_error_names_counterexample :
    Convert noFloats "x=1;x=2".toList (.mk "settings".toList .Object [])
        = .error "Cannot convert 'settings' value because object key 'x' is already defined".toList
    ∧ ¬ "x=1;x=2".toList
        <:+: "Cannot convert 'settings' value because object key 'x' is already defined".toList
    ∧ Convert noFloats "x=a".toList (.mk "settings".toList .Object [.mk "x".toList .Integer []])
        = .error "Cannot convert 'x' value 'a' to integer".toList
    ∧ ¬ "settings".toList <:+: "Cannot convert 'x' value 'a' to integer".toList
    ∧ ¬ "x=a".toList <:+: "Cannot convert 'x' value 'a' to integer".toList := by
  refine ⟨by rfl, fun h => ?_, by rfl, fun h => ?_, fun h => ?_⟩
  · exact absurd (h.subset (by decide : ';' ∈ "x=1;x=2".toList)) (by decide)
  · exact absurd (h.subset (by decide : 's' ∈ "settings".toList)) (by decide)
  · exact absurd (h.subset (by decide : '=' ∈ "x=a".toList)) (by decide)

end Later

end Uipathcli
